import Mathlib

/-!
Verification of the viewport-aware translation scheduling engine
(`src/services/TranslationEngine.ts`).

The engine class is embedded shallowly: its mutable fields become the record
`EngineState`, each method becomes a pure function from state to state
(returning emitted callback notifications as an `Event` list where a claim
needs them), and the asynchronous `translateBatch` call is split at its
suspension point: the synchronous prefix of `processQueue` up to the network
request is the `processQueueFn` dispatch step, the outstanding request is an
`InflightBatch` record, and the continuation that runs when the promise
settles is the `resolveFn` step.  DOM-only material (elements, the
IntersectionObserver geometry, `elementToChunkId`, the log strings) is
dropped; everything the scheduling logic reads or writes is kept.

JS `Set` objects are modelled as duplicate-free insertion-ordered lists with
`setAdd` / `setDel`; `Map` objects and plain record objects as association
lists with `recSet` / `recGet` (insertion order preserved, as in JS).
`string.length` is modelled as `String.length`; only comparisons of lengths
matter to the claims.
-/

/-- Priority tier of a queue item (the high / normal string union in the source). -/
inductive Priority where
  | high
  | normal
deriving DecidableEq, Repr

/-- Engine status (the idle / translating / paused string union). -/
inductive Status where
  | idle
  | translating
  | paused
deriving DecidableEq, Repr

/-- Outward callback notifications the engine emits
(`onTranslationComplete`, `onTranslationError`, `onBatchStart`). -/
inductive Event where
  | complete (chunkId : String) (translation : String)
  | error (chunkId : String)
  | batchStart (first : Nat) (last : Nat) (count : Nat)
deriving DecidableEq, Repr

/-- `TextChunk` from `src/services/chunker.ts` (the optional `context`
field is never read by the engine and is dropped). -/
structure TextChunk where
  id : String
  index : Nat
  text : String
deriving DecidableEq, Repr

/-- `QueueItem` from the source. -/
structure QueueItem where
  chunkId : String
  chunkIndex : Nat
  priority : Priority
  addedAt : Nat
deriving DecidableEq, Repr

/-- `ParagraphInfo` minus the DOM `element` field, which the scheduling
logic never reads. -/
structure ParagraphInfo where
  chunkIndex : Nat
  text : String
deriving DecidableEq, Repr

/-- The engine configuration after merging with defaults
(`Required<EngineConfig>`); `visibleObserverScreens` only feeds the
IntersectionObserver root margin and is dropped, `novelTitle` only feeds the
outgoing request context. -/
structure EngineConfig where
  maxConcurrentRequests : Nat
  maxBatchSize : Nat
  maxBatchChars : Nat
  novelTitle : String
  translateFirstN : Nat
  lookaheadCount : Nat
deriving DecidableEq, Repr

/-- The constructor defaults. -/
def defaultConfig : EngineConfig :=
  { maxConcurrentRequests := 3
    maxBatchSize := 4
    maxBatchChars := 1500
    novelTitle := ""
    translateFirstN := 20
    lookaheadCount := 20 }

/-- A dispatched, not-yet-resolved `aiService.translateBatch` request: the
batch items and the source texts that were captured for it at dispatch time
(`translateBatch` computes `texts` synchronously before its `await`). -/
structure InflightBatch where
  items : List QueueItem
  texts : List String
deriving DecidableEq, Repr

/-- The mutable fields of the `TranslationEngine` class.  `processorTimer`
is abstracted to the boolean `timerActive`; `inflight` is the collection of
outstanding requests that the source keeps implicitly as pending promises. -/
structure EngineState where
  config : EngineConfig
  queue : List QueueItem
  pendingIds : List String
  completedIds : List String
  activeRequests : Nat
  isPaused : Bool
  isStarted : Bool
  status : Status
  paragraphMap : List (String × ParagraphInfo)
  allChunks : List TextChunk
  translations : List (String × String)
  inflight : List InflightBatch
  timerActive : Bool
deriving DecidableEq, Repr

/-- JS `Set.add`: append if absent. -/
def setAdd (xs : List String) (x : String) : List String :=
  if x ∈ xs then xs else xs ++ [x]

/-- JS `Set.delete`. -/
def setDel (xs : List String) (x : String) : List String :=
  xs.filter (fun y => y ≠ x)

/-- Association-list read (JS `Map.get` / object indexing). -/
def recGet {β : Type} (m : List (String × β)) (k : String) : Option β :=
  (m.find? (fun p => p.1 = k)).map (fun p => p.2)

/-- Association-list write (JS `Map.set` / object index assignment):
replace in place if the key is present, else append. -/
def recSet {β : Type} (m : List (String × β)) (k : String) (v : β) :
    List (String × β) :=
  if m.any (fun p => p.1 = k) then
    m.map (fun p => if p.1 = k then (k, v) else p)
  else m ++ [(k, v)]

/-- Ids currently in the queue. -/
def queueIds (s : EngineState) : List String :=
  s.queue.map (fun q => q.chunkId)

/-- `setStatus`: record the new status (the `onStatusChange` callback and
the completion log line carry no scheduling state and are not modelled). -/
def setStatusFn (newStatus : Status) (s : EngineState) : EngineState :=
  if s.status = newStatus then s else { s with status := newStatus }

/-- The `findIndex`/`splice` insertion of `addToQueue`: insert before the
first normal-tier item with a strictly larger ordinal, else push to the
back. -/
def insertNormalItem (item : QueueItem) : List QueueItem → List QueueItem
  | [] => [item]
  | q :: qs =>
    if q.priority = Priority.normal ∧ item.chunkIndex < q.chunkIndex then
      item :: q :: qs
    else q :: insertNormalItem item qs

/-- `addToQueue(chunkId, chunkIndex, priority)` (source lines 327-357). -/
def addToQueue (chunkId : String) (chunkIndex : Nat) (priority : Priority)
    (now : Nat) (s : EngineState) : EngineState :=
  if s.queue.any (fun item => item.chunkId = chunkId) then s
  else if chunkId ∈ s.pendingIds then s
  else
    let item : QueueItem :=
      { chunkId := chunkId, chunkIndex := chunkIndex,
        priority := priority, addedAt := now }
    let q' := match priority with
      | Priority.high => item :: s.queue
      | Priority.normal => insertNormalItem item s.queue
    let s' := { s with queue := q' }
    if ¬ s'.isPaused ∧ s'.status ≠ Status.translating then
      setStatusFn Status.translating s'
    else s'

/-- `addToQueueDirect(chunkId, chunkIndex, text, priority)` (source lines
363-407): same as `addToQueue` but first ensures `paragraphMap` holds an
entry for the chunk (synthetic, element-less in the source). -/
def addToQueueDirect (chunkId : String) (chunkIndex : Nat) (text : String)
    (priority : Priority) (now : Nat) (s : EngineState) : EngineState :=
  if s.queue.any (fun item => item.chunkId = chunkId) then s
  else if chunkId ∈ s.pendingIds then s
  else
    let s₀ :=
      if (recGet s.paragraphMap chunkId).isSome then s
      else { s with paragraphMap :=
              s.paragraphMap ++ [(chunkId, ⟨chunkIndex, text⟩)] }
    let item : QueueItem :=
      { chunkId := chunkId, chunkIndex := chunkIndex,
        priority := priority, addedAt := now }
    let q' := match priority with
      | Priority.high => item :: s₀.queue
      | Priority.normal => insertNormalItem item s₀.queue
    let s' := { s₀ with queue := q' }
    if ¬ s'.isPaused ∧ s'.status ≠ Status.translating then
      setStatusFn Status.translating s'
    else s'

/-- The extension loop of `buildBatch` (source lines 490-507): greedily add
queue items while they are ordinally consecutive, the batch is below the
size cap, the paragraph is registered, and adding would not overflow the
character budget. -/
def extendBatch (cfg : EngineConfig)
    (pmap : List (String × ParagraphInfo)) :
    List QueueItem → List QueueItem → Nat → Nat → List QueueItem
  | [], acc, _, _ => acc
  | item :: rest, acc, totalChars, nextIndex =>
    if acc.length < cfg.maxBatchSize then
      if item.chunkIndex ≠ nextIndex then acc
      else
        match recGet pmap item.chunkId with
        | none => acc
        | some info =>
          if cfg.maxBatchChars < totalChars + info.text.length then acc
          else
            extendBatch cfg pmap rest (acc ++ [item])
              (totalChars + info.text.length) (nextIndex + 1)
    else acc

/-- `buildBatch()` (source lines 476-510). -/
def buildBatch (s : EngineState) : List QueueItem :=
  match s.queue with
  | [] => []
  | first :: rest =>
    match recGet s.paragraphMap first.chunkId with
    | none => []
    | some firstInfo =>
      extendBatch s.config s.paragraphMap rest [first]
        firstInfo.text.length (first.chunkIndex + 1)

/-- The synchronous part of `processQueue()` (source lines 419-459) plus
the synchronous prefix of `translateBatch` that captures the batch texts
(lines 513-516): early-outs for pause / concurrency cap / empty queue, the
idle transition, then batch construction, pending marking, queue removal,
counter increment and dispatch.  The dispatched request is appended to
`inflight`; its continuation is `resolveFn`. -/
def processQueueFn (s : EngineState) : EngineState × List Event :=
  if s.isPaused then (s, [])
  else if s.config.maxConcurrentRequests ≤ s.activeRequests then (s, [])
  else if s.queue.isEmpty then
    if s.activeRequests = 0 ∧ s.status = Status.translating ∧
        s.allChunks.all (fun c => c.id ∈ s.completedIds) ∧
        0 < s.allChunks.length then
      (setStatusFn Status.idle s, [])
    else (s, [])
  else
    let batch := buildBatch s
    if batch.isEmpty then (s, [])
    else
      let s₁ := { s with pendingIds :=
        (batch.foldl (fun p (item : QueueItem) => setAdd p item.chunkId)
          s.pendingIds) }
      let batchIds := batch.map (fun b => b.chunkId)
      let s₂ := { s₁ with queue :=
        (s₁.queue.filter (fun q => ¬ q.chunkId ∈ batchIds)) }
      let s₃ := { s₂ with activeRequests := s₂.activeRequests + 1 }
      let texts := (batch.map (fun item =>
        ((recGet s.paragraphMap item.chunkId).map
          (fun info => info.text)).getD "")).filter (fun t => t ≠ "")
      let s₄ := { s₃ with inflight :=
        (s₃.inflight ++ [InflightBatch.mk batch texts]) }
      let firstIndex := (batch.head?.map (fun b => b.chunkIndex)).getD 0
      let lastIndex := (batch.getLast?.map (fun b => b.chunkIndex)).getD 0
      (s₄, [Event.batchStart (firstIndex + 1) (lastIndex + 1) batch.length])

/-- The result-mapping loop of `translateBatch` (source lines 537-552),
run when the request resolves: positions are matched head-wise (the source
indexes `translations[idx]`, which is the same pairing); a truthy
(non-empty) translation marks the paragraph completed, records the
translation and emits a completion, a missing or empty one emits an error
and clears the pending marker only. -/
def applyResults : List QueueItem → List String → EngineState →
    EngineState × List Event
  | [], _, s => (s, [])
  | item :: items, [], s =>
    let s₁ := { s with pendingIds := setDel s.pendingIds item.chunkId }
    let (s', evs) := applyResults items [] s₁
    (s', Event.error item.chunkId :: evs)
  | item :: items, r :: rs, s =>
    if r ≠ "" then
      let s₁ := { s with
        completedIds := setAdd s.completedIds item.chunkId,
        pendingIds := setDel s.pendingIds item.chunkId,
        translations := recSet s.translations item.chunkId r }
      let (s', evs) := applyResults items rs s₁
      (s', Event.complete item.chunkId r :: evs)
    else
      let s₁ := { s with pendingIds := setDel s.pendingIds item.chunkId }
      let (s', evs) := applyResults items rs s₁
      (s', Event.error item.chunkId :: evs)

/-- The catch branch of `processQueue` (source lines 463-470): on a
batch-level rejection every member paragraph is dropped from the pending
set and reported as an error. -/
def applyFailure : List QueueItem → EngineState → EngineState × List Event
  | [], s => (s, [])
  | item :: items, s =>
    let s₁ := { s with pendingIds := setDel s.pendingIds item.chunkId }
    let (s', evs) := applyFailure items s₁
    (s', Event.error item.chunkId :: evs)

/-- Settlement of the in-flight request at position `i`: `some results`
models the promise resolving with that array, `none` models a rejection
(the catch path).  If the captured texts were empty, `translateBatch`
returned before calling the service, so resolution applies no mapping.
The `finally` block decrements `activeRequests` on every path. -/
def resolveFn (i : Nat) (outcome : Option (List String)) (s : EngineState) :
    EngineState × List Event :=
  match s.inflight[i]? with
  | none => (s, [])
  | some fb =>
    let s₀ := { s with inflight := s.inflight.eraseIdx i }
    let (s₁, evs) :=
      match outcome with
      | some results =>
        if fb.texts.isEmpty then (s₀, [])
        else applyResults fb.items results s₀
      | none => applyFailure fb.items s₀
    ({ s₁ with activeRequests := s₁.activeRequests - 1 }, evs)

/-- `enqueue(chunkId, priority)` (source lines 156-164). -/
def enqueueFn (chunkId : String) (priority : Priority) (now : Nat)
    (s : EngineState) : EngineState :=
  if chunkId ∈ s.pendingIds ∨ chunkId ∈ s.completedIds then s
  else
    match recGet s.paragraphMap chunkId with
    | none => s
    | some info => addToQueue chunkId info.chunkIndex priority now s

/-- `retry(chunkId)` (source lines 169-179): drop the id from the
completed and pending sets, re-queue it at high priority from the
`allChunks` record, and immediately run `processQueue`. -/
def retryFn (chunkId : String) (now : Nat) (s : EngineState) :
    EngineState × List Event :=
  let s₁ := { s with
    completedIds := setDel s.completedIds chunkId,
    pendingIds := setDel s.pendingIds chunkId }
  match s₁.allChunks.find? (fun c => c.id = chunkId) with
  | none => (s₁, [])
  | some chunk =>
    processQueueFn (addToQueueDirect chunkId chunk.index chunk.text
      Priority.high now s₁)

/-- `updateTranslations(translations)` (source lines 184-190): replace the
translation record and for every supplied key add it to the completed set
and drop it from the pending set. -/
def updateTranslationsFn (translations : List (String × String))
    (s : EngineState) : EngineState :=
  let s₁ := { s with translations := translations }
  translations.foldl
    (fun st p =>
      { st with
        completedIds := setAdd st.completedIds p.1,
        pendingIds := setDel st.pendingIds p.1 })
    s₁

/-- `pause()` (source lines 195-199). -/
def pauseFn (s : EngineState) : EngineState :=
  setStatusFn Status.paused { s with isPaused := true }

/-- `resume()` (source lines 204-211). -/
def resumeFn (s : EngineState) : EngineState × List Event :=
  let s₁ := { s with isPaused := false }
  if 0 < s₁.queue.length ∨ 0 < s₁.activeRequests then
    processQueueFn (setStatusFn Status.translating s₁)
  else (s₁, [])

/-- The auto-enqueue loop of `start()` (source lines 227-236): walk
`allChunks` from the front, skip completed ones, queue directly until
`translateFirstN` paragraphs have been enqueued. -/
def startEnqueue (now : Nat) (firstN : Nat) :
    List TextChunk → Nat → EngineState → EngineState
  | [], _, s => s
  | chunk :: chunks, enqueued, s =>
    if firstN ≤ enqueued then s
    else if chunk.id ∈ s.completedIds then
      startEnqueue now firstN chunks enqueued s
    else
      startEnqueue now firstN chunks (enqueued + 1)
        (addToQueueDirect chunk.id chunk.index chunk.text Priority.normal
          now s)

/-- `start()` (source lines 216-244). -/
def startFn (now : Nat) (s : EngineState) : EngineState × List Event :=
  let s₁ := { s with isPaused := false, isStarted := true }
  let s₂ := setStatusFn Status.translating s₁
  let s₃ := startEnqueue now s₂.config.translateFirstN s₂.allChunks 0 s₂
  processQueueFn s₃

/-- `destroy()` (source lines 249-261): disconnect the observer, cancel
the interval, clear queue, pending set and paragraph registry.  The
completed set, the translation record, the counter and the outstanding
requests are left as they are. -/
def destroyFn (s : EngineState) : EngineState :=
  { s with
    timerActive := false,
    queue := [],
    pendingIds := [],
    paragraphMap := [] }

/-- `observe(element, chunkId, chunkIndex, text)` (source lines 129-139)
minus the DOM side: register the paragraph unless already completed. -/
def observeFn (chunkId : String) (chunkIndex : Nat) (text : String)
    (s : EngineState) : EngineState :=
  if chunkId ∈ s.completedIds then s
  else { s with paragraphMap :=
    (recSet s.paragraphMap chunkId ⟨chunkIndex, text⟩) }

/-- The look-ahead loop of `onParagraphVisible` (source lines 316-324):
walk positions `i`, `i+1`, ... of `allChunks` for `fuel` steps, queueing
each not-yet-completed, not-yet-pending chunk directly. -/
def lookaheadFrom (now : Nat) : Nat → Nat → EngineState → EngineState
  | _, 0, s => s
  | i, fuel + 1, s =>
    match s.allChunks[i]? with
    | none => lookaheadFrom now (i + 1) fuel s
    | some chunk =>
      if chunk.id ∈ s.completedIds ∨ chunk.id ∈ s.pendingIds then
        lookaheadFrom now (i + 1) fuel s
      else
        lookaheadFrom now (i + 1) fuel
          (addToQueueDirect chunk.id chunk.index chunk.text Priority.normal
            now s)

/-- `onParagraphVisible(chunkId)` (source lines 298-325): ignored before
`start()`, ignored for pending or completed paragraphs, ignored for
unregistered paragraphs; otherwise queue the visible paragraph and a
forward look-ahead window of `lookaheadCount` chunks. -/
def onParagraphVisibleFn (chunkId : String) (now : Nat) (s : EngineState) :
    EngineState :=
  if ¬ s.isStarted then s
  else if chunkId ∈ s.pendingIds ∨ chunkId ∈ s.completedIds then s
  else
    match recGet s.paragraphMap chunkId with
    | none => s
    | some info =>
      let s₁ := addToQueue chunkId info.chunkIndex Priority.normal now s
      let startIdx := info.chunkIndex + 1
      let endIdx := min (startIdx + s.config.lookaheadCount)
        s.allChunks.length
      lookaheadFrom now startIdx (endIdx - startIdx) s₁

/-- `initialize(config, callbacks, chunks, existingTranslations)` (source
lines 103-124) followed by `startProcessor()`: the merged configuration is
taken as a whole `EngineConfig`; every existing translation key is marked
completed; the interval is armed and an initial `processQueue` runs. -/
def initEngine (cfg : EngineConfig) (chunks : List TextChunk)
    (existing : List (String × String)) : EngineState :=
  let s : EngineState :=
    { config := cfg
      queue := []
      pendingIds := []
      completedIds := existing.foldl (fun acc p => setAdd acc p.1) []
      activeRequests := 0
      isPaused := false
      isStarted := false
      status := Status.idle
      paragraphMap := []
      allChunks := chunks
      translations := existing
      inflight := []
      timerActive := true }
  (processQueueFn s).1

/-- A label for one atomic reaction step of the engine: the interval tick,
the externally driven operations, and the settlement of an outstanding
request.  `now` parameters stand for `Date.now()` at the call. -/
inductive Act where
  | tick
  | visible (chunkId : String) (now : Nat)
  | enqueue (chunkId : String) (priority : Priority) (now : Nat)
  | observe (chunkId : String) (chunkIndex : Nat) (text : String)
  | retry (chunkId : String) (now : Nat)
  | start (now : Nat)
  | pause
  | resume
  | updateT (translations : List (String × String))
  | destroy
  | resolve (i : Nat) (outcome : Option (List String))
deriving DecidableEq, Repr

/-- One atomic reaction step.  The interval tick only fires while the
timer armed by `startProcessor` is alive. -/
def stepA (a : Act) (s : EngineState) : EngineState × List Event :=
  match a with
  | Act.tick => if s.timerActive then processQueueFn s else (s, [])
  | Act.visible chunkId now => (onParagraphVisibleFn chunkId now s, [])
  | Act.enqueue chunkId priority now => (enqueueFn chunkId priority now s, [])
  | Act.observe chunkId chunkIndex text =>
    (observeFn chunkId chunkIndex text s, [])
  | Act.retry chunkId now => retryFn chunkId now s
  | Act.start now => startFn now s
  | Act.pause => (pauseFn s, [])
  | Act.resume => resumeFn s
  | Act.updateT translations => (updateTranslationsFn translations s, [])
  | Act.destroy => (destroyFn s, [])
  | Act.resolve i outcome => resolveFn i outcome s

/-- Run a sequence of reaction steps, keeping the final state. -/
def runActs (s : EngineState) (acts : List Act) : EngineState :=
  acts.foldl (fun st a => (stepA a st).1) s

/-! ### Specification-side definitions

These follow the words of the spec and are compared with the embedded
operations in the claim theorems. -/

/-- Ordinals of `l` are exactly `n, n + 1, n + 2, ...`. -/
def runFrom : Nat → List QueueItem → Bool
  | _, [] => true
  | n, item :: rest => item.chunkIndex = n && runFrom (n + 1) rest

/-- The spec notion of a strictly consecutive ascending run of ordinals. -/
def isConsecutiveRun : List QueueItem → Bool
  | [] => true
  | item :: rest => runFrom (item.chunkIndex + 1) rest

/-- Cumulative source-text character count of a batch, reading each
registered text of each member. -/
def batchChars (pmap : List (String × ParagraphInfo))
    (batch : List QueueItem) : Nat :=
  (batch.map (fun item =>
    ((recGet pmap item.chunkId).map (fun info => info.text.length)).getD
      0)).sum

/-- Registered text length of the queue head, the batch anchor. -/
def anchorChars (s : EngineState) : Nat :=
  ((s.queue.head?.bind (fun item => recGet s.paragraphMap item.chunkId)).map
    (fun info => info.text.length)).getD 0

/-- The per-position notifications the spec prescribes for a resolved
batch: a completion for every position holding a non-empty string, an
error for every empty or missing position. -/
def expectedEvents : List QueueItem → List String → List Event
  | [], _ => []
  | item :: items, [] => Event.error item.chunkId :: expectedEvents items []
  | item :: items, r :: rs =>
    (if r ≠ "" then Event.complete item.chunkId r
     else Event.error item.chunkId) :: expectedEvents items rs

/-- Ids of the positions that carry a non-empty result. -/
def goodIds : List QueueItem → List String → List String
  | [], _ => []
  | _ :: _, [] => []
  | item :: items, r :: rs =>
    if r ≠ "" then item.chunkId :: goodIds items rs else goodIds items rs

/-- Number of queue entries carrying a given id. -/
def countQ (chunkId : String) (q : List QueueItem) : Nat :=
  (q.filter (fun item => item.chunkId = chunkId)).length

/-- The chunk list is well indexed: the chunk stored at position `i`
carries ordinal `i` (what the Chunker produces). -/
def chunksIndexed (chunks : List TextChunk) : Prop :=
  ∀ i, (h : i < chunks.length) → (chunks.get ⟨i, h⟩).index = i

instance : DecidablePred chunksIndexed := fun chunks =>
  decidable_of_iff (∀ i, (h : i < chunks.length) →
    (chunks.get ⟨i, h⟩).index = i) Iff.rfl

/-! ### Helper lemmas: sets and association lists -/

lemma mem_setAdd {xs : List String} {x y : String} :
    y ∈ setAdd xs x ↔ y ∈ xs ∨ y = x := by
  unfold setAdd
  split
  · next h =>
      constructor
      · exact Or.inl
      · rintro (hy | rfl)
        · exact hy
        · exact h
  · simp [List.mem_append]

lemma mem_setDel {xs : List String} {x y : String} :
    y ∈ setDel xs x ↔ y ∈ xs ∧ y ≠ x := by
  unfold setDel
  simp [List.mem_filter]

lemma not_mem_setDel_self {xs : List String} {x : String} :
    x ∉ setDel xs x := by
  simp [mem_setDel]

lemma mem_foldl_setAdd {l : List String} {c : List String} {x : String} :
    x ∈ l.foldl setAdd c ↔ x ∈ c ∨ x ∈ l := by
  induction l generalizing c with
  | nil => simp
  | cons y ys ih =>
    simp only [List.foldl_cons, ih, mem_setAdd, List.mem_cons]
    tauto

lemma mem_foldl_setAdd' {α : Type} {l : List α} {f : α → String}
    {c : List String} {x : String} :
    x ∈ l.foldl (fun p a => setAdd p (f a)) c ↔ x ∈ c ∨ ∃ a ∈ l, f a = x := by
  induction l generalizing c with
  | nil => simp
  | cons y ys ih =>
    simp only [List.foldl_cons, ih, mem_setAdd]
    constructor
    · rintro (⟨h | h⟩ | ⟨a, ha, rfl⟩)
      · exact Or.inl h
      · exact Or.inr ⟨y, List.mem_cons_self _ _, h.symm⟩
      · exact Or.inr ⟨a, List.mem_cons_of_mem _ ha, rfl⟩
    · rintro (h | ⟨a, ha, rfl⟩)
      · exact Or.inl (Or.inl h)
      · rcases List.mem_cons.mp ha with rfl | ha'
        · exact Or.inl (Or.inr rfl)
        · exact Or.inr ⟨a, ha', rfl⟩

lemma recGet_append_of_isSome {β : Type} {m : List (String × β)}
    {k : String} {kv : String × β} (h : (recGet m k).isSome) :
    recGet (m ++ [kv]) k = recGet m k := by
  unfold recGet at h ⊢
  rcases hf : m.find? (fun p => p.1 = k) with _ | p
  · rw [hf] at h; simp at h
  · rw [List.find?_append, hf]; rfl

lemma recGet_append_self {β : Type} {m : List (String × β)} {k : String}
    {v : β} (h : (recGet m k).isSome = false) :
    recGet (m ++ [(k, v)]) k = some v := by
  unfold recGet at h ⊢
  rcases hf : m.find? (fun p => p.1 = k) with _ | p
  · rw [List.find?_append, hf]
    simp
  · rw [hf] at h; simp at h

/-! ### Frame lemmas: which fields each operation leaves untouched -/

@[simp] lemma setStatusFn_queue (st : Status) (s : EngineState) :
    (setStatusFn st s).queue = s.queue := by
  unfold setStatusFn; split <;> rfl

@[simp] lemma setStatusFn_pendingIds (st : Status) (s : EngineState) :
    (setStatusFn st s).pendingIds = s.pendingIds := by
  unfold setStatusFn; split <;> rfl

@[simp] lemma setStatusFn_completedIds (st : Status) (s : EngineState) :
    (setStatusFn st s).completedIds = s.completedIds := by
  unfold setStatusFn; split <;> rfl

@[simp] lemma setStatusFn_activeRequests (st : Status) (s : EngineState) :
    (setStatusFn st s).activeRequests = s.activeRequests := by
  unfold setStatusFn; split <;> rfl

@[simp] lemma setStatusFn_inflight (st : Status) (s : EngineState) :
    (setStatusFn st s).inflight = s.inflight := by
  unfold setStatusFn; split <;> rfl

@[simp] lemma setStatusFn_config (st : Status) (s : EngineState) :
    (setStatusFn st s).config = s.config := by
  unfold setStatusFn; split <;> rfl

@[simp] lemma setStatusFn_isPaused (st : Status) (s : EngineState) :
    (setStatusFn st s).isPaused = s.isPaused := by
  unfold setStatusFn; split <;> rfl

@[simp] lemma setStatusFn_isStarted (st : Status) (s : EngineState) :
    (setStatusFn st s).isStarted = s.isStarted := by
  unfold setStatusFn; split <;> rfl

@[simp] lemma setStatusFn_paragraphMap (st : Status) (s : EngineState) :
    (setStatusFn st s).paragraphMap = s.paragraphMap := by
  unfold setStatusFn; split <;> rfl

@[simp] lemma setStatusFn_allChunks (st : Status) (s : EngineState) :
    (setStatusFn st s).allChunks = s.allChunks := by
  unfold setStatusFn; split <;> rfl

@[simp] lemma setStatusFn_translations (st : Status) (s : EngineState) :
    (setStatusFn st s).translations = s.translations := by
  unfold setStatusFn; split <;> rfl

@[simp] lemma setStatusFn_timerActive (st : Status) (s : EngineState) :
    (setStatusFn st s).timerActive = s.timerActive := by
  unfold setStatusFn; split <;> rfl

@[simp] lemma addToQueue_pendingIds (c : String) (i : Nat) (p : Priority)
    (n : Nat) (s : EngineState) :
    (addToQueue c i p n s).pendingIds = s.pendingIds := by
  unfold addToQueue; dsimp only; repeat' split
  all_goals simp

@[simp] lemma addToQueue_completedIds (c : String) (i : Nat) (p : Priority)
    (n : Nat) (s : EngineState) :
    (addToQueue c i p n s).completedIds = s.completedIds := by
  unfold addToQueue; dsimp only; repeat' split
  all_goals simp

@[simp] lemma addToQueue_activeRequests (c : String) (i : Nat)
    (p : Priority) (n : Nat) (s : EngineState) :
    (addToQueue c i p n s).activeRequests = s.activeRequests := by
  unfold addToQueue; dsimp only; repeat' split
  all_goals simp

@[simp] lemma addToQueue_inflight (c : String) (i : Nat) (p : Priority)
    (n : Nat) (s : EngineState) :
    (addToQueue c i p n s).inflight = s.inflight := by
  unfold addToQueue; dsimp only; repeat' split
  all_goals simp

@[simp] lemma addToQueue_config (c : String) (i : Nat) (p : Priority)
    (n : Nat) (s : EngineState) :
    (addToQueue c i p n s).config = s.config := by
  unfold addToQueue; dsimp only; repeat' split
  all_goals simp

@[simp] lemma addToQueue_isPaused (c : String) (i : Nat) (p : Priority)
    (n : Nat) (s : EngineState) :
    (addToQueue c i p n s).isPaused = s.isPaused := by
  unfold addToQueue; dsimp only; repeat' split
  all_goals simp

@[simp] lemma addToQueue_isStarted (c : String) (i : Nat) (p : Priority)
    (n : Nat) (s : EngineState) :
    (addToQueue c i p n s).isStarted = s.isStarted := by
  unfold addToQueue; dsimp only; repeat' split
  all_goals simp

@[simp] lemma addToQueue_paragraphMap (c : String) (i : Nat) (p : Priority)
    (n : Nat) (s : EngineState) :
    (addToQueue c i p n s).paragraphMap = s.paragraphMap := by
  unfold addToQueue; dsimp only; repeat' split
  all_goals simp

@[simp] lemma addToQueue_allChunks (c : String) (i : Nat) (p : Priority)
    (n : Nat) (s : EngineState) :
    (addToQueue c i p n s).allChunks = s.allChunks := by
  unfold addToQueue; dsimp only; repeat' split
  all_goals simp

@[simp] lemma addToQueue_translations (c : String) (i : Nat) (p : Priority)
    (n : Nat) (s : EngineState) :
    (addToQueue c i p n s).translations = s.translations := by
  unfold addToQueue; dsimp only; repeat' split
  all_goals simp

@[simp] lemma addToQueue_timerActive (c : String) (i : Nat) (p : Priority)
    (n : Nat) (s : EngineState) :
    (addToQueue c i p n s).timerActive = s.timerActive := by
  unfold addToQueue; dsimp only; repeat' split
  all_goals simp

@[simp] lemma addToQueueDirect_pendingIds (c : String) (i : Nat)
    (t : String) (p : Priority) (n : Nat) (s : EngineState) :
    (addToQueueDirect c i t p n s).pendingIds = s.pendingIds := by
  unfold addToQueueDirect; dsimp only; repeat' split
  all_goals simp

@[simp] lemma addToQueueDirect_completedIds (c : String) (i : Nat)
    (t : String) (p : Priority) (n : Nat) (s : EngineState) :
    (addToQueueDirect c i t p n s).completedIds = s.completedIds := by
  unfold addToQueueDirect; dsimp only; repeat' split
  all_goals simp

@[simp] lemma addToQueueDirect_activeRequests (c : String) (i : Nat)
    (t : String) (p : Priority) (n : Nat) (s : EngineState) :
    (addToQueueDirect c i t p n s).activeRequests = s.activeRequests := by
  unfold addToQueueDirect; dsimp only; repeat' split
  all_goals simp

@[simp] lemma addToQueueDirect_inflight (c : String) (i : Nat) (t : String)
    (p : Priority) (n : Nat) (s : EngineState) :
    (addToQueueDirect c i t p n s).inflight = s.inflight := by
  unfold addToQueueDirect; dsimp only; repeat' split
  all_goals simp

@[simp] lemma addToQueueDirect_config (c : String) (i : Nat) (t : String)
    (p : Priority) (n : Nat) (s : EngineState) :
    (addToQueueDirect c i t p n s).config = s.config := by
  unfold addToQueueDirect; dsimp only; repeat' split
  all_goals simp

@[simp] lemma addToQueueDirect_isPaused (c : String) (i : Nat) (t : String)
    (p : Priority) (n : Nat) (s : EngineState) :
    (addToQueueDirect c i t p n s).isPaused = s.isPaused := by
  unfold addToQueueDirect; dsimp only; repeat' split
  all_goals simp

@[simp] lemma addToQueueDirect_isStarted (c : String) (i : Nat)
    (t : String) (p : Priority) (n : Nat) (s : EngineState) :
    (addToQueueDirect c i t p n s).isStarted = s.isStarted := by
  unfold addToQueueDirect; dsimp only; repeat' split
  all_goals simp

@[simp] lemma addToQueueDirect_allChunks (c : String) (i : Nat)
    (t : String) (p : Priority) (n : Nat) (s : EngineState) :
    (addToQueueDirect c i t p n s).allChunks = s.allChunks := by
  unfold addToQueueDirect; dsimp only; repeat' split
  all_goals simp

@[simp] lemma addToQueueDirect_translations (c : String) (i : Nat)
    (t : String) (p : Priority) (n : Nat) (s : EngineState) :
    (addToQueueDirect c i t p n s).translations = s.translations := by
  unfold addToQueueDirect; dsimp only; repeat' split
  all_goals simp

@[simp] lemma addToQueueDirect_timerActive (c : String) (i : Nat)
    (t : String) (p : Priority) (n : Nat) (s : EngineState) :
    (addToQueueDirect c i t p n s).timerActive = s.timerActive := by
  unfold addToQueueDirect; dsimp only; repeat' split
  all_goals simp

@[simp] lemma processQueueFn_completedIds (s : EngineState) :
    (processQueueFn s).1.completedIds = s.completedIds := by
  unfold processQueueFn; dsimp only; repeat' split
  all_goals simp

@[simp] lemma processQueueFn_isPaused (s : EngineState) :
    (processQueueFn s).1.isPaused = s.isPaused := by
  unfold processQueueFn; dsimp only; repeat' split
  all_goals simp

@[simp] lemma processQueueFn_isStarted (s : EngineState) :
    (processQueueFn s).1.isStarted = s.isStarted := by
  unfold processQueueFn; dsimp only; repeat' split
  all_goals simp

@[simp] lemma processQueueFn_config (s : EngineState) :
    (processQueueFn s).1.config = s.config := by
  unfold processQueueFn; dsimp only; repeat' split
  all_goals simp

@[simp] lemma processQueueFn_paragraphMap (s : EngineState) :
    (processQueueFn s).1.paragraphMap = s.paragraphMap := by
  unfold processQueueFn; dsimp only; repeat' split
  all_goals simp

@[simp] lemma processQueueFn_allChunks (s : EngineState) :
    (processQueueFn s).1.allChunks = s.allChunks := by
  unfold processQueueFn; dsimp only; repeat' split
  all_goals simp

@[simp] lemma processQueueFn_translations (s : EngineState) :
    (processQueueFn s).1.translations = s.translations := by
  unfold processQueueFn; dsimp only; repeat' split
  all_goals simp

@[simp] lemma processQueueFn_timerActive (s : EngineState) :
    (processQueueFn s).1.timerActive = s.timerActive := by
  unfold processQueueFn; dsimp only; repeat' split
  all_goals simp

lemma processQueueFn_of_paused (s : EngineState) (h : s.isPaused = true) :
    processQueueFn s = (s, []) := by
  unfold processQueueFn
  simp [h]

lemma applyResults_queue (items : List QueueItem) (rs : List String)
    (s : EngineState) : (applyResults items rs s).1.queue = s.queue := by
  induction items generalizing rs s with
  | nil => rfl
  | cons item items ih =>
    cases rs with
    | nil => simpa [applyResults] using ih [] _
    | cons r rs =>
      by_cases hr : r = "" <;> simp [applyResults, hr, ih]

lemma applyResults_activeRequests (items : List QueueItem)
    (rs : List String) (s : EngineState) :
    (applyResults items rs s).1.activeRequests = s.activeRequests := by
  induction items generalizing rs s with
  | nil => rfl
  | cons item items ih =>
    cases rs with
    | nil => simpa [applyResults] using ih [] _
    | cons r rs =>
      by_cases hr : r = "" <;> simp [applyResults, hr, ih]

lemma applyResults_inflight (items : List QueueItem) (rs : List String)
    (s : EngineState) :
    (applyResults items rs s).1.inflight = s.inflight := by
  induction items generalizing rs s with
  | nil => rfl
  | cons item items ih =>
    cases rs with
    | nil => simpa [applyResults] using ih [] _
    | cons r rs =>
      by_cases hr : r = "" <;> simp [applyResults, hr, ih]

lemma applyResults_pendingIds_subset (items : List QueueItem)
    (rs : List String) (s : EngineState) {x : String}
    (hx : x ∈ (applyResults items rs s).1.pendingIds) : x ∈ s.pendingIds := by
  induction items generalizing rs s with
  | nil => exact hx
  | cons item items ih =>
    cases rs with
    | nil =>
      simp only [applyResults] at hx
      exact (mem_setDel.mp (ih [] _ hx)).1
    | cons r rs =>
      by_cases hr : r = ""
      · simp only [applyResults, hr] at hx
        simp only [ne_eq, not_true_eq_false, if_neg, ite_false] at hx
        exact (mem_setDel.mp (ih rs _ hx)).1
      · simp only [applyResults, if_pos (by simpa using hr)] at hx
        exact (mem_setDel.mp (ih rs _ hx)).1

lemma applyFailure_queue (items : List QueueItem) (s : EngineState) :
    (applyFailure items s).1.queue = s.queue := by
  induction items generalizing s with
  | nil => rfl
  | cons item items ih => simp [applyFailure, ih]

lemma applyFailure_completedIds (items : List QueueItem) (s : EngineState) :
    (applyFailure items s).1.completedIds = s.completedIds := by
  induction items generalizing s with
  | nil => rfl
  | cons item items ih => simp [applyFailure, ih]

lemma applyFailure_translations (items : List QueueItem) (s : EngineState) :
    (applyFailure items s).1.translations = s.translations := by
  induction items generalizing s with
  | nil => rfl
  | cons item items ih => simp [applyFailure, ih]

lemma applyFailure_activeRequests (items : List QueueItem)
    (s : EngineState) :
    (applyFailure items s).1.activeRequests = s.activeRequests := by
  induction items generalizing s with
  | nil => rfl
  | cons item items ih => simp [applyFailure, ih]

lemma applyFailure_inflight (items : List QueueItem) (s : EngineState) :
    (applyFailure items s).1.inflight = s.inflight := by
  induction items generalizing s with
  | nil => rfl
  | cons item items ih => simp [applyFailure, ih]

lemma applyFailure_events (items : List QueueItem) (s : EngineState) :
    (applyFailure items s).2 =
      items.map (fun item => Event.error item.chunkId) := by
  induction items generalizing s with
  | nil => rfl
  | cons item items ih => simp [applyFailure, ih]

lemma applyFailure_pendingIds (items : List QueueItem) (s : EngineState)
    (x : String) :
    x ∈ (applyFailure items s).1.pendingIds ↔
      x ∈ s.pendingIds ∧ x ∉ items.map (fun item => item.chunkId) := by
  induction items generalizing s with
  | nil => simp [applyFailure]
  | cons item items ih =>
    simp only [applyFailure, ih, mem_setDel, List.map_cons, List.mem_cons]
    tauto

lemma applyResults_events (items : List QueueItem) (rs : List String)
    (s : EngineState) :
    (applyResults items rs s).2 = expectedEvents items rs := by
  induction items generalizing rs s with
  | nil => rfl
  | cons item items ih =>
    cases rs with
    | nil => simp [applyResults, expectedEvents, ih]
    | cons r rs =>
      by_cases hr : r = "" <;>
        simp [applyResults, expectedEvents, hr, ih]

@[simp] lemma goodIds_rs_nil (items : List QueueItem) :
    goodIds items [] = [] := by
  cases items <;> rfl

lemma applyResults_completedIds (items : List QueueItem) (rs : List String)
    (s : EngineState) :
    (applyResults items rs s).1.completedIds =
      (goodIds items rs).foldl setAdd s.completedIds := by
  induction items generalizing rs s with
  | nil => simp [applyResults, goodIds]
  | cons item items ih =>
    cases rs with
    | nil => simp [applyResults, ih]
    | cons r rs =>
      by_cases hr : r = "" <;>
        simp [applyResults, goodIds, hr, ih]

lemma goodIds_complete_mem {items : List QueueItem} {rs : List String}
    {x : String} (hx : x ∈ goodIds items rs) :
    ∃ t, t ≠ "" ∧ Event.complete x t ∈ expectedEvents items rs := by
  induction items generalizing rs with
  | nil => simp [goodIds] at hx
  | cons item items ih =>
    cases rs with
    | nil => simp [goodIds] at hx
    | cons r rs =>
      by_cases hr : r = ""
      · simp only [goodIds, hr, ne_eq, not_true_eq_false, if_neg,
          ite_false] at hx
        obtain ⟨t, ht, hmem⟩ := ih hx
        exact ⟨t, ht, by simp [expectedEvents, hr, hmem]⟩
      · simp only [goodIds, if_pos (by simpa using hr),
          List.mem_cons] at hx
        rcases hx with rfl | hx
        · exact ⟨r, hr, by simp [expectedEvents, hr]⟩
        · obtain ⟨t, ht, hmem⟩ := ih hx
          exact ⟨t, ht, by simp [expectedEvents, hr, hmem]⟩

lemma mem_insertNormalItem {item a : QueueItem} {l : List QueueItem} :
    a ∈ insertNormalItem item l ↔ a = item ∨ a ∈ l := by
  induction l with
  | nil => simp [insertNormalItem]
  | cons q qs ih =>
    unfold insertNormalItem
    split
    · simp
    · simp only [List.mem_cons, ih]
      tauto

lemma insertNormalItem_perm (item : QueueItem) (l : List QueueItem) :
    (insertNormalItem item l).Perm (item :: l) := by
  induction l with
  | nil => simp [insertNormalItem]
  | cons q qs ih =>
    unfold insertNormalItem
    split
    · exact List.Perm.refl _
    · exact (List.Perm.cons q ih).trans (List.Perm.swap item q qs)

lemma countQ_cons (q : QueueItem) (l : List QueueItem) (x : String) :
    countQ x (q :: l) =
      countQ x l + (if q.chunkId = x then 1 else 0) := by
  unfold countQ
  rw [← List.countP_eq_length_filter, ← List.countP_eq_length_filter,
    List.countP_cons]
  simp

lemma countQ_insertNormalItem (item : QueueItem) (l : List QueueItem)
    (x : String) :
    countQ x (insertNormalItem item l) =
      countQ x l + (if item.chunkId = x then 1 else 0) := by
  unfold countQ
  rw [← List.countP_eq_length_filter, ← List.countP_eq_length_filter,
    (insertNormalItem_perm item l).countP_eq, List.countP_cons]
  simp

lemma countQ_eq_zero {l : List QueueItem} {x : String} :
    countQ x l = 0 ↔ ∀ q ∈ l, q.chunkId ≠ x := by
  unfold countQ
  rw [List.length_eq_zero, List.filter_eq_nil_iff]
  simp

lemma runFrom_append_singleton (b : Nat) (acc : List QueueItem)
    (item : QueueItem) :
    runFrom b (acc ++ [item]) =
      (runFrom b acc && decide (item.chunkIndex = b + acc.length)) := by
  induction acc generalizing b with
  | nil => simp [runFrom]
  | cons q qs ih =>
    simp only [List.cons_append, runFrom, ih]
    cases hq : (decide (q.chunkIndex = b) : Bool)
    · simp
    · simp only [Bool.true_and, List.length_cons, List.append_eq]
      rw [ih (b + 1)]
      have h2 : b + 1 + qs.length = b + (qs.length + 1) := by omega
      rw [h2]

lemma extendBatch_runFrom (cfg : EngineConfig)
    (pmap : List (String × ParagraphInfo)) (rest : List QueueItem)
    (acc : List QueueItem) (total next b : Nat)
    (hacc : runFrom b acc = true) (hnext : next = b + acc.length) :
    runFrom b (extendBatch cfg pmap rest acc total next) = true := by
  induction rest generalizing acc total next with
  | nil => simpa [extendBatch] using hacc
  | cons item rest ih =>
    unfold extendBatch
    split
    · split
      · exact hacc
      · next hidx =>
        rcases hrec : recGet pmap item.chunkId with _ | info
        · simpa using hacc
        · simp only
          split
          · exact hacc
          · apply ih
            · rw [runFrom_append_singleton, hacc]
              have : item.chunkIndex = b + acc.length := by omega
              simp [this]
            · simp only [List.length_append, List.length_cons,
                List.length_nil]
              omega
    · exact hacc

lemma runFrom_isConsecutiveRun {b : Nat} {l : List QueueItem}
    (h : runFrom b l = true) : isConsecutiveRun l = true := by
  cases l with
  | nil => rfl
  | cons x xs =>
    simp only [runFrom, Bool.and_eq_true, decide_eq_true_eq] at h
    simp only [isConsecutiveRun]
    rw [h.1]
    exact h.2

lemma extendBatch_length (cfg : EngineConfig)
    (pmap : List (String × ParagraphInfo)) (rest : List QueueItem)
    (acc : List QueueItem) (total next : Nat) :
    (extendBatch cfg pmap rest acc total next).length ≤
      max acc.length cfg.maxBatchSize := by
  induction rest generalizing acc total next with
  | nil => simp [extendBatch]
  | cons item rest ih =>
    unfold extendBatch
    split
    · next hlen =>
      split
      · exact le_max_left _ _
      · rcases hrec : recGet pmap item.chunkId with _ | info
        · simp
        · simp only
          split
          · exact le_max_left _ _
          · refine le_trans (ih _ _ _) ?_
            simp only [List.length_append, List.length_cons,
              List.length_nil]
            omega
    · exact le_max_left _ _

lemma batchChars_append_singleton (pmap : List (String × ParagraphInfo))
    (acc : List QueueItem) (item : QueueItem) :
    batchChars pmap (acc ++ [item]) =
      batchChars pmap acc +
        ((recGet pmap item.chunkId).map
          (fun info => info.text.length)).getD 0 := by
  unfold batchChars
  simp

lemma extendBatch_chars (cfg : EngineConfig)
    (pmap : List (String × ParagraphInfo)) (rest : List QueueItem)
    (acc : List QueueItem) (total next : Nat)
    (hacc : batchChars pmap acc = total) :
    batchChars pmap (extendBatch cfg pmap rest acc total next) ≤
      max cfg.maxBatchChars total := by
  induction rest generalizing acc total next with
  | nil => simp [extendBatch, hacc]
  | cons item rest ih =>
    unfold extendBatch
    split
    · split
      · rw [hacc]; exact le_max_right _ _
      · rcases hrec : recGet pmap item.chunkId with _ | info
        · rw [hacc]; exact le_max_right _ _
        · simp only
          split
          · rw [hacc]; exact le_max_right _ _
          · next hfit =>
            refine le_trans (ih _ _ _ ?_) ?_
            · rw [batchChars_append_singleton, hacc, hrec]
              rfl
            · have : total + info.text.length ≤ cfg.maxBatchChars := by
                omega
              omega
    · rw [hacc]; exact le_max_right _ _

lemma extendBatch_head? (cfg : EngineConfig)
    (pmap : List (String × ParagraphInfo)) (rest : List QueueItem)
    (acc : List QueueItem) (total next : Nat) (hacc : acc ≠ []) :
    (extendBatch cfg pmap rest acc total next).head? = acc.head? := by
  induction rest generalizing acc total next with
  | nil => simp [extendBatch]
  | cons item rest ih =>
    unfold extendBatch
    split
    · split
      · rfl
      · rcases hrec : recGet pmap item.chunkId with _ | info
        · simp
        · simp only
          split
          · rfl
          · rw [ih _ _ _ (by simp)]
            exact List.head?_append_of_ne_nil _ hacc
    · rfl

lemma buildBatch_of_cons {s : EngineState} {first : QueueItem}
    {rest : List QueueItem} {info : ParagraphInfo}
    (hq : s.queue = first :: rest)
    (hrec : recGet s.paragraphMap first.chunkId = some info) :
    buildBatch s = extendBatch s.config s.paragraphMap rest [first]
      info.text.length (first.chunkIndex + 1) := by
  simp [buildBatch, hq, hrec]

lemma buildBatch_consecutive (s : EngineState) :
    isConsecutiveRun (buildBatch s) = true := by
  rcases hq : s.queue with _ | ⟨first, rest⟩
  · simp [buildBatch, hq, isConsecutiveRun]
  · rcases hrec : recGet s.paragraphMap first.chunkId with _ | info
    · simp [buildBatch, hq, hrec, isConsecutiveRun]
    · rw [buildBatch_of_cons hq hrec]
      exact runFrom_isConsecutiveRun
        (extendBatch_runFrom s.config s.paragraphMap rest [first]
          info.text.length (first.chunkIndex + 1) first.chunkIndex
          (by simp [runFrom]) (by simp))

lemma buildBatch_length_le (s : EngineState) :
    (buildBatch s).length ≤ max 1 s.config.maxBatchSize := by
  rcases hq : s.queue with _ | ⟨first, rest⟩
  · simp [buildBatch, hq]
  · rcases hrec : recGet s.paragraphMap first.chunkId with _ | info
    · simp [buildBatch, hq, hrec]
    · rw [buildBatch_of_cons hq hrec]
      simpa using extendBatch_length s.config s.paragraphMap rest [first]
        info.text.length (first.chunkIndex + 1)

lemma buildBatch_chars_le (s : EngineState) :
    batchChars s.paragraphMap (buildBatch s) ≤
      max s.config.maxBatchChars (anchorChars s) := by
  rcases hq : s.queue with _ | ⟨first, rest⟩
  · simp [buildBatch, hq, batchChars]
  · rcases hrec : recGet s.paragraphMap first.chunkId with _ | info
    · simp [buildBatch, hq, hrec, batchChars]
    · have ha : anchorChars s = info.text.length := by
        simp [anchorChars, hq, hrec]
      rw [buildBatch_of_cons hq hrec, ha]
      exact extendBatch_chars s.config s.paragraphMap rest [first]
        info.text.length (first.chunkIndex + 1)
        (by simp [batchChars, hrec])

lemma buildBatch_head? {s : EngineState} {first : QueueItem}
    {rest : List QueueItem} {info : ParagraphInfo}
    (hq : s.queue = first :: rest)
    (hrec : recGet s.paragraphMap first.chunkId = some info) :
    (buildBatch s).head? = some first := by
  rw [buildBatch_of_cons hq hrec,
    extendBatch_head? _ _ _ _ _ _ (by simp)]
  rfl

lemma lookaheadFrom_frame (now : Nat) (i fuel : Nat) (s : EngineState) :
    (lookaheadFrom now i fuel s).pendingIds = s.pendingIds ∧
    (lookaheadFrom now i fuel s).completedIds = s.completedIds ∧
    (lookaheadFrom now i fuel s).activeRequests = s.activeRequests ∧
    (lookaheadFrom now i fuel s).inflight = s.inflight ∧
    (lookaheadFrom now i fuel s).config = s.config ∧
    (lookaheadFrom now i fuel s).isPaused = s.isPaused ∧
    (lookaheadFrom now i fuel s).isStarted = s.isStarted ∧
    (lookaheadFrom now i fuel s).allChunks = s.allChunks ∧
    (lookaheadFrom now i fuel s).translations = s.translations ∧
    (lookaheadFrom now i fuel s).timerActive = s.timerActive := by
  induction fuel generalizing i s with
  | zero => simp [lookaheadFrom]
  | succ fuel ih =>
    unfold lookaheadFrom
    split
    · exact ih _ _
    · split
      · exact ih _ _
      · next chunk _ _ =>
        have h := ih (i + 1)
          (addToQueueDirect chunk.id chunk.index chunk.text
            Priority.normal now s)
        simpa using h

lemma startEnqueue_frame (now : Nat) (firstN : Nat)
    (chunks : List TextChunk) (enq : Nat) (s : EngineState) :
    (startEnqueue now firstN chunks enq s).pendingIds = s.pendingIds ∧
    (startEnqueue now firstN chunks enq s).completedIds = s.completedIds ∧
    (startEnqueue now firstN chunks enq s).activeRequests =
      s.activeRequests ∧
    (startEnqueue now firstN chunks enq s).inflight = s.inflight ∧
    (startEnqueue now firstN chunks enq s).config = s.config ∧
    (startEnqueue now firstN chunks enq s).isPaused = s.isPaused ∧
    (startEnqueue now firstN chunks enq s).isStarted = s.isStarted ∧
    (startEnqueue now firstN chunks enq s).allChunks = s.allChunks ∧
    (startEnqueue now firstN chunks enq s).translations = s.translations ∧
    (startEnqueue now firstN chunks enq s).timerActive = s.timerActive := by
  induction chunks generalizing enq s with
  | nil => simp [startEnqueue]
  | cons chunk chunks ih =>
    unfold startEnqueue
    split
    · simp
    · split
      · exact ih _ _
      · have h := ih (enq + 1)
          (addToQueueDirect chunk.id chunk.index chunk.text
            Priority.normal now s)
        simpa using h

/-- The per-key folding step of `updateTranslations`. -/
def updStep (st : EngineState) (p : String × String) : EngineState :=
  { st with
    completedIds := setAdd st.completedIds p.1,
    pendingIds := setDel st.pendingIds p.1 }

lemma updateTranslationsFn_eq (ts : List (String × String))
    (s : EngineState) :
    updateTranslationsFn ts s =
      ts.foldl updStep { s with translations := ts } := rfl

lemma updFold_frame (ps : List (String × String)) (t : EngineState) :
    (ps.foldl updStep t).queue = t.queue ∧
    (ps.foldl updStep t).activeRequests = t.activeRequests ∧
    (ps.foldl updStep t).inflight = t.inflight ∧
    (ps.foldl updStep t).config = t.config ∧
    (ps.foldl updStep t).isPaused = t.isPaused ∧
    (ps.foldl updStep t).isStarted = t.isStarted ∧
    (ps.foldl updStep t).status = t.status ∧
    (ps.foldl updStep t).paragraphMap = t.paragraphMap ∧
    (ps.foldl updStep t).allChunks = t.allChunks ∧
    (ps.foldl updStep t).translations = t.translations ∧
    (ps.foldl updStep t).timerActive = t.timerActive := by
  induction ps generalizing t with
  | nil => exact ⟨rfl, rfl, rfl, rfl, rfl, rfl, rfl, rfl, rfl, rfl, rfl⟩
  | cons p ps ih =>
    simp only [List.foldl_cons]
    exact ih (updStep t p)

lemma updFold_pendingIds (ps : List (String × String)) (t : EngineState)
    (x : String) :
    x ∈ (ps.foldl updStep t).pendingIds ↔
      x ∈ t.pendingIds ∧ x ∉ ps.map Prod.fst := by
  induction ps generalizing t with
  | nil => simp
  | cons p ps ih =>
    simp only [List.foldl_cons, ih, updStep, mem_setDel, List.map_cons,
      List.mem_cons]
    tauto

lemma updFold_completedIds (ps : List (String × String)) (t : EngineState)
    (x : String) :
    x ∈ (ps.foldl updStep t).completedIds ↔
      x ∈ t.completedIds ∨ x ∈ ps.map Prod.fst := by
  induction ps generalizing t with
  | nil => simp
  | cons p ps ih =>
    simp only [List.foldl_cons, ih, updStep, mem_setAdd, List.map_cons,
      List.mem_cons]
    tauto

/-! ### Concurrency accounting -/

/-- The guaranteed-release discipline: the counter always equals the number
of outstanding requests, and respects the configured bound. -/
def ConcInv (s : EngineState) : Prop :=
  s.activeRequests = s.inflight.length ∧
  s.activeRequests ≤ s.config.maxConcurrentRequests

lemma processQueueFn_concInv (s : EngineState) (h : ConcInv s) :
    ConcInv (processQueueFn s).1 := by
  obtain ⟨h1, h2⟩ := h
  unfold processQueueFn
  dsimp only
  repeat' split
  all_goals simp only [ConcInv, setStatusFn_activeRequests,
    setStatusFn_inflight, setStatusFn_config, List.length_append,
    List.length_cons, List.length_nil] at *
  all_goals omega

lemma resolveFn_activeRequests (i : Nat) (oc : Option (List String))
    (s : EngineState) :
    (resolveFn i oc s).1.activeRequests =
      s.activeRequests - (if (s.inflight[i]?).isSome then 1 else 0) := by
  unfold resolveFn
  rcases hfb : s.inflight[i]? with _ | fb
  · simp
  · rcases oc with _ | rs
    · simp [applyFailure_activeRequests]
    · by_cases ht : fb.texts.isEmpty <;>
        simp [ht, applyResults_activeRequests]

lemma resolveFn_inflight (i : Nat) (oc : Option (List String))
    (s : EngineState) :
    (resolveFn i oc s).1.inflight =
      if (s.inflight[i]?).isSome then s.inflight.eraseIdx i
      else s.inflight := by
  unfold resolveFn
  rcases hfb : s.inflight[i]? with _ | fb
  · simp
  · rcases oc with _ | rs
    · simp [applyFailure_inflight]
    · by_cases ht : fb.texts.isEmpty <;> simp [ht, applyResults_inflight]

lemma applyResults_frame (items : List QueueItem) (rs : List String)
    (s : EngineState) :
    (applyResults items rs s).1.config = s.config ∧
    (applyResults items rs s).1.isPaused = s.isPaused ∧
    (applyResults items rs s).1.isStarted = s.isStarted ∧
    (applyResults items rs s).1.status = s.status ∧
    (applyResults items rs s).1.paragraphMap = s.paragraphMap ∧
    (applyResults items rs s).1.allChunks = s.allChunks ∧
    (applyResults items rs s).1.timerActive = s.timerActive := by
  induction items generalizing rs s with
  | nil => exact ⟨rfl, rfl, rfl, rfl, rfl, rfl, rfl⟩
  | cons item items ih =>
    cases rs with
    | nil => simpa [applyResults] using ih [] _
    | cons r rs =>
      by_cases hr : r = "" <;> simp [applyResults, hr, ih]

lemma applyFailure_frame (items : List QueueItem) (s : EngineState) :
    (applyFailure items s).1.config = s.config ∧
    (applyFailure items s).1.isPaused = s.isPaused ∧
    (applyFailure items s).1.isStarted = s.isStarted ∧
    (applyFailure items s).1.status = s.status ∧
    (applyFailure items s).1.paragraphMap = s.paragraphMap ∧
    (applyFailure items s).1.allChunks = s.allChunks ∧
    (applyFailure items s).1.timerActive = s.timerActive := by
  induction items generalizing s with
  | nil => exact ⟨rfl, rfl, rfl, rfl, rfl, rfl, rfl⟩
  | cons item items ih => simp [applyFailure, ih]

lemma resolveFn_config (i : Nat) (oc : Option (List String))
    (s : EngineState) : (resolveFn i oc s).1.config = s.config := by
  unfold resolveFn
  rcases hfb : s.inflight[i]? with _ | fb
  · simp
  · rcases oc with _ | rs
    · have h := (applyFailure_frame fb.items
        { s with inflight := s.inflight.eraseIdx i }).1
      simp [h]
    · by_cases ht : fb.texts.isEmpty
      · simp [ht]
      · have h := (applyResults_frame fb.items rs
          { s with inflight := s.inflight.eraseIdx i }).1
        simp [ht, h]

lemma resolveFn_concInv (i : Nat) (oc : Option (List String))
    (s : EngineState) (h : ConcInv s) : ConcInv (resolveFn i oc s).1 := by
  obtain ⟨h1, h2⟩ := h
  have ha := resolveFn_activeRequests i oc s
  have hb := resolveFn_inflight i oc s
  have hc := resolveFn_config i oc s
  rcases hfb : s.inflight[i]? with _ | fb
  · refine ⟨?_, ?_⟩
    · rw [ha, hb]; simp [hfb, h1]
    · rw [ha, hc]; simp [hfb]; omega
  · have hlt : i < s.inflight.length := by
      obtain ⟨hl, _⟩ := List.getElem?_eq_some.mp hfb
      exact hl
    refine ⟨?_, ?_⟩
    · rw [ha, hb]
      simp only [hfb, Option.isSome_some, if_pos]
      rw [List.length_eraseIdx]
      simp [hlt, h1]
    · rw [ha, hc]
      simp only [hfb, Option.isSome_some, if_pos]
      omega

@[simp] lemma lookaheadFrom_pendingIds (now i fuel : Nat) (s : EngineState) :
    (lookaheadFrom now i fuel s).pendingIds = s.pendingIds :=
  (lookaheadFrom_frame now i fuel s).1

@[simp] lemma lookaheadFrom_completedIds (now i fuel : Nat)
    (s : EngineState) :
    (lookaheadFrom now i fuel s).completedIds = s.completedIds :=
  (lookaheadFrom_frame now i fuel s).2.1

@[simp] lemma lookaheadFrom_activeRequests (now i fuel : Nat)
    (s : EngineState) :
    (lookaheadFrom now i fuel s).activeRequests = s.activeRequests :=
  (lookaheadFrom_frame now i fuel s).2.2.1

@[simp] lemma lookaheadFrom_inflight (now i fuel : Nat) (s : EngineState) :
    (lookaheadFrom now i fuel s).inflight = s.inflight :=
  (lookaheadFrom_frame now i fuel s).2.2.2.1

@[simp] lemma lookaheadFrom_config (now i fuel : Nat) (s : EngineState) :
    (lookaheadFrom now i fuel s).config = s.config :=
  (lookaheadFrom_frame now i fuel s).2.2.2.2.1

@[simp] lemma lookaheadFrom_isPaused (now i fuel : Nat) (s : EngineState) :
    (lookaheadFrom now i fuel s).isPaused = s.isPaused :=
  (lookaheadFrom_frame now i fuel s).2.2.2.2.2.1

@[simp] lemma lookaheadFrom_isStarted (now i fuel : Nat) (s : EngineState) :
    (lookaheadFrom now i fuel s).isStarted = s.isStarted :=
  (lookaheadFrom_frame now i fuel s).2.2.2.2.2.2.1

@[simp] lemma lookaheadFrom_allChunks (now i fuel : Nat) (s : EngineState) :
    (lookaheadFrom now i fuel s).allChunks = s.allChunks :=
  (lookaheadFrom_frame now i fuel s).2.2.2.2.2.2.2.1

@[simp] lemma lookaheadFrom_translations (now i fuel : Nat)
    (s : EngineState) :
    (lookaheadFrom now i fuel s).translations = s.translations :=
  (lookaheadFrom_frame now i fuel s).2.2.2.2.2.2.2.2.1

@[simp] lemma lookaheadFrom_timerActive (now i fuel : Nat)
    (s : EngineState) :
    (lookaheadFrom now i fuel s).timerActive = s.timerActive :=
  (lookaheadFrom_frame now i fuel s).2.2.2.2.2.2.2.2.2

@[simp] lemma startEnqueue_pendingIds (now firstN : Nat)
    (chunks : List TextChunk) (enq : Nat) (s : EngineState) :
    (startEnqueue now firstN chunks enq s).pendingIds = s.pendingIds :=
  (startEnqueue_frame now firstN chunks enq s).1

@[simp] lemma startEnqueue_completedIds (now firstN : Nat)
    (chunks : List TextChunk) (enq : Nat) (s : EngineState) :
    (startEnqueue now firstN chunks enq s).completedIds = s.completedIds :=
  (startEnqueue_frame now firstN chunks enq s).2.1

@[simp] lemma startEnqueue_activeRequests (now firstN : Nat)
    (chunks : List TextChunk) (enq : Nat) (s : EngineState) :
    (startEnqueue now firstN chunks enq s).activeRequests =
      s.activeRequests :=
  (startEnqueue_frame now firstN chunks enq s).2.2.1

@[simp] lemma startEnqueue_inflight (now firstN : Nat)
    (chunks : List TextChunk) (enq : Nat) (s : EngineState) :
    (startEnqueue now firstN chunks enq s).inflight = s.inflight :=
  (startEnqueue_frame now firstN chunks enq s).2.2.2.1

@[simp] lemma startEnqueue_config (now firstN : Nat)
    (chunks : List TextChunk) (enq : Nat) (s : EngineState) :
    (startEnqueue now firstN chunks enq s).config = s.config :=
  (startEnqueue_frame now firstN chunks enq s).2.2.2.2.1

@[simp] lemma startEnqueue_isPaused (now firstN : Nat)
    (chunks : List TextChunk) (enq : Nat) (s : EngineState) :
    (startEnqueue now firstN chunks enq s).isPaused = s.isPaused :=
  (startEnqueue_frame now firstN chunks enq s).2.2.2.2.2.1

@[simp] lemma startEnqueue_isStarted (now firstN : Nat)
    (chunks : List TextChunk) (enq : Nat) (s : EngineState) :
    (startEnqueue now firstN chunks enq s).isStarted = s.isStarted :=
  (startEnqueue_frame now firstN chunks enq s).2.2.2.2.2.2.1

@[simp] lemma startEnqueue_allChunks (now firstN : Nat)
    (chunks : List TextChunk) (enq : Nat) (s : EngineState) :
    (startEnqueue now firstN chunks enq s).allChunks = s.allChunks :=
  (startEnqueue_frame now firstN chunks enq s).2.2.2.2.2.2.2.1

@[simp] lemma startEnqueue_translations (now firstN : Nat)
    (chunks : List TextChunk) (enq : Nat) (s : EngineState) :
    (startEnqueue now firstN chunks enq s).translations = s.translations :=
  (startEnqueue_frame now firstN chunks enq s).2.2.2.2.2.2.2.2.1

@[simp] lemma startEnqueue_timerActive (now firstN : Nat)
    (chunks : List TextChunk) (enq : Nat) (s : EngineState) :
    (startEnqueue now firstN chunks enq s).timerActive = s.timerActive :=
  (startEnqueue_frame now firstN chunks enq s).2.2.2.2.2.2.2.2.2

@[simp] lemma onParagraphVisibleFn_pendingIds (c : String) (now : Nat)
    (s : EngineState) :
    (onParagraphVisibleFn c now s).pendingIds = s.pendingIds := by
  unfold onParagraphVisibleFn; repeat' split
  all_goals simp

@[simp] lemma onParagraphVisibleFn_completedIds (c : String) (now : Nat)
    (s : EngineState) :
    (onParagraphVisibleFn c now s).completedIds = s.completedIds := by
  unfold onParagraphVisibleFn; repeat' split
  all_goals simp

@[simp] lemma onParagraphVisibleFn_activeRequests (c : String) (now : Nat)
    (s : EngineState) :
    (onParagraphVisibleFn c now s).activeRequests = s.activeRequests := by
  unfold onParagraphVisibleFn; repeat' split
  all_goals simp

@[simp] lemma onParagraphVisibleFn_inflight (c : String) (now : Nat)
    (s : EngineState) :
    (onParagraphVisibleFn c now s).inflight = s.inflight := by
  unfold onParagraphVisibleFn; repeat' split
  all_goals simp

@[simp] lemma onParagraphVisibleFn_config (c : String) (now : Nat)
    (s : EngineState) :
    (onParagraphVisibleFn c now s).config = s.config := by
  unfold onParagraphVisibleFn; repeat' split
  all_goals simp

@[simp] lemma onParagraphVisibleFn_isPaused (c : String) (now : Nat)
    (s : EngineState) :
    (onParagraphVisibleFn c now s).isPaused = s.isPaused := by
  unfold onParagraphVisibleFn; repeat' split
  all_goals simp

@[simp] lemma onParagraphVisibleFn_isStarted (c : String) (now : Nat)
    (s : EngineState) :
    (onParagraphVisibleFn c now s).isStarted = s.isStarted := by
  unfold onParagraphVisibleFn; repeat' split
  all_goals simp

@[simp] lemma onParagraphVisibleFn_allChunks (c : String) (now : Nat)
    (s : EngineState) :
    (onParagraphVisibleFn c now s).allChunks = s.allChunks := by
  unfold onParagraphVisibleFn; repeat' split
  all_goals simp

@[simp] lemma onParagraphVisibleFn_translations (c : String) (now : Nat)
    (s : EngineState) :
    (onParagraphVisibleFn c now s).translations = s.translations := by
  unfold onParagraphVisibleFn; repeat' split
  all_goals simp

@[simp] lemma onParagraphVisibleFn_timerActive (c : String) (now : Nat)
    (s : EngineState) :
    (onParagraphVisibleFn c now s).timerActive = s.timerActive := by
  unfold onParagraphVisibleFn; repeat' split
  all_goals simp

@[simp] lemma enqueueFn_pendingIds (c : String) (p : Priority) (now : Nat)
    (s : EngineState) : (enqueueFn c p now s).pendingIds = s.pendingIds := by
  unfold enqueueFn; repeat' split
  all_goals simp

@[simp] lemma enqueueFn_completedIds (c : String) (p : Priority) (now : Nat)
    (s : EngineState) :
    (enqueueFn c p now s).completedIds = s.completedIds := by
  unfold enqueueFn; repeat' split
  all_goals simp

@[simp] lemma enqueueFn_activeRequests (c : String) (p : Priority)
    (now : Nat) (s : EngineState) :
    (enqueueFn c p now s).activeRequests = s.activeRequests := by
  unfold enqueueFn; repeat' split
  all_goals simp

@[simp] lemma enqueueFn_inflight (c : String) (p : Priority) (now : Nat)
    (s : EngineState) : (enqueueFn c p now s).inflight = s.inflight := by
  unfold enqueueFn; repeat' split
  all_goals simp

@[simp] lemma enqueueFn_config (c : String) (p : Priority) (now : Nat)
    (s : EngineState) : (enqueueFn c p now s).config = s.config := by
  unfold enqueueFn; repeat' split
  all_goals simp

@[simp] lemma enqueueFn_isPaused (c : String) (p : Priority) (now : Nat)
    (s : EngineState) : (enqueueFn c p now s).isPaused = s.isPaused := by
  unfold enqueueFn; repeat' split
  all_goals simp

@[simp] lemma enqueueFn_paragraphMap (c : String) (p : Priority) (now : Nat)
    (s : EngineState) :
    (enqueueFn c p now s).paragraphMap = s.paragraphMap := by
  unfold enqueueFn; repeat' split
  all_goals simp

@[simp] lemma enqueueFn_timerActive (c : String) (p : Priority) (now : Nat)
    (s : EngineState) :
    (enqueueFn c p now s).timerActive = s.timerActive := by
  unfold enqueueFn; repeat' split
  all_goals simp

@[simp] lemma updFold_queue' (ps : List (String × String))
    (t : EngineState) : (ps.foldl updStep t).queue = t.queue :=
  (updFold_frame ps t).1

@[simp] lemma updFold_activeRequests' (ps : List (String × String))
    (t : EngineState) :
    (ps.foldl updStep t).activeRequests = t.activeRequests :=
  (updFold_frame ps t).2.1

@[simp] lemma updFold_inflight' (ps : List (String × String))
    (t : EngineState) : (ps.foldl updStep t).inflight = t.inflight :=
  (updFold_frame ps t).2.2.1

@[simp] lemma updFold_config' (ps : List (String × String))
    (t : EngineState) : (ps.foldl updStep t).config = t.config :=
  (updFold_frame ps t).2.2.2.1

@[simp] lemma updFold_isPaused' (ps : List (String × String))
    (t : EngineState) : (ps.foldl updStep t).isPaused = t.isPaused :=
  (updFold_frame ps t).2.2.2.2.1

@[simp] lemma updFold_isStarted' (ps : List (String × String))
    (t : EngineState) : (ps.foldl updStep t).isStarted = t.isStarted :=
  (updFold_frame ps t).2.2.2.2.2.1

@[simp] lemma updFold_status' (ps : List (String × String))
    (t : EngineState) : (ps.foldl updStep t).status = t.status :=
  (updFold_frame ps t).2.2.2.2.2.2.1

@[simp] lemma updFold_paragraphMap' (ps : List (String × String))
    (t : EngineState) : (ps.foldl updStep t).paragraphMap = t.paragraphMap :=
  (updFold_frame ps t).2.2.2.2.2.2.2.1

@[simp] lemma updFold_allChunks' (ps : List (String × String))
    (t : EngineState) : (ps.foldl updStep t).allChunks = t.allChunks :=
  (updFold_frame ps t).2.2.2.2.2.2.2.2.1

@[simp] lemma updFold_translations' (ps : List (String × String))
    (t : EngineState) : (ps.foldl updStep t).translations = t.translations :=
  (updFold_frame ps t).2.2.2.2.2.2.2.2.2.1

@[simp] lemma updFold_timerActive' (ps : List (String × String))
    (t : EngineState) : (ps.foldl updStep t).timerActive = t.timerActive :=
  (updFold_frame ps t).2.2.2.2.2.2.2.2.2.2

@[simp] lemma observeFn_queue (c : String) (i : Nat) (t : String)
    (s : EngineState) : (observeFn c i t s).queue = s.queue := by
  unfold observeFn; split <;> rfl

@[simp] lemma observeFn_pendingIds (c : String) (i : Nat) (t : String)
    (s : EngineState) : (observeFn c i t s).pendingIds = s.pendingIds := by
  unfold observeFn; split <;> rfl

@[simp] lemma observeFn_completedIds (c : String) (i : Nat) (t : String)
    (s : EngineState) : (observeFn c i t s).completedIds = s.completedIds := by
  unfold observeFn; split <;> rfl

@[simp] lemma observeFn_activeRequests (c : String) (i : Nat) (t : String)
    (s : EngineState) :
    (observeFn c i t s).activeRequests = s.activeRequests := by
  unfold observeFn; split <;> rfl

@[simp] lemma observeFn_inflight (c : String) (i : Nat) (t : String)
    (s : EngineState) : (observeFn c i t s).inflight = s.inflight := by
  unfold observeFn; split <;> rfl

@[simp] lemma observeFn_config (c : String) (i : Nat) (t : String)
    (s : EngineState) : (observeFn c i t s).config = s.config := by
  unfold observeFn; split <;> rfl

@[simp] lemma observeFn_isPaused (c : String) (i : Nat) (t : String)
    (s : EngineState) : (observeFn c i t s).isPaused = s.isPaused := by
  unfold observeFn; split <;> rfl

@[simp] lemma observeFn_timerActive (c : String) (i : Nat) (t : String)
    (s : EngineState) : (observeFn c i t s).timerActive = s.timerActive := by
  unfold observeFn; split <;> rfl

@[simp] lemma pauseFn_queue (s : EngineState) :
    (pauseFn s).queue = s.queue := by
  unfold pauseFn; simp

@[simp] lemma pauseFn_pendingIds (s : EngineState) :
    (pauseFn s).pendingIds = s.pendingIds := by
  unfold pauseFn; simp

@[simp] lemma pauseFn_completedIds (s : EngineState) :
    (pauseFn s).completedIds = s.completedIds := by
  unfold pauseFn; simp

@[simp] lemma pauseFn_activeRequests (s : EngineState) :
    (pauseFn s).activeRequests = s.activeRequests := by
  unfold pauseFn; simp

@[simp] lemma pauseFn_inflight (s : EngineState) :
    (pauseFn s).inflight = s.inflight := by
  unfold pauseFn; simp

@[simp] lemma pauseFn_config (s : EngineState) :
    (pauseFn s).config = s.config := by
  unfold pauseFn; simp

@[simp] lemma pauseFn_paragraphMap (s : EngineState) :
    (pauseFn s).paragraphMap = s.paragraphMap := by
  unfold pauseFn; simp

@[simp] lemma pauseFn_translations (s : EngineState) :
    (pauseFn s).translations = s.translations := by
  unfold pauseFn; simp

@[simp] lemma pauseFn_timerActive (s : EngineState) :
    (pauseFn s).timerActive = s.timerActive := by
  unfold pauseFn; simp

lemma stepA_concInv (a : Act) (s : EngineState) (h : ConcInv s) :
    ConcInv (stepA a s).1 := by
  have hfields : ∀ t : EngineState, t.activeRequests = s.activeRequests →
      t.inflight = s.inflight → t.config = s.config → ConcInv t := by
    intro t ha hb hc
    unfold ConcInv at *
    rw [ha, hb, hc]
    exact h
  cases a with
  | tick =>
    simp only [stepA]
    split
    · exact processQueueFn_concInv s h
    · exact h
  | visible c now =>
    apply hfields
    all_goals simp [stepA]
  | enqueue c p now =>
    apply hfields
    all_goals simp [stepA]
  | observe c i t =>
    apply hfields
    all_goals simp [stepA]
  | retry c now =>
    simp only [stepA]
    unfold retryFn
    dsimp only
    split
    · exact hfields _ rfl rfl rfl
    · apply processQueueFn_concInv
      apply hfields
      all_goals simp
  | start now =>
    simp only [stepA]
    unfold startFn
    apply processQueueFn_concInv
    apply hfields
    all_goals simp
  | pause =>
    apply hfields
    all_goals simp [stepA]
  | resume =>
    simp only [stepA]
    unfold resumeFn
    dsimp only
    split
    · apply processQueueFn_concInv
      apply hfields
      all_goals simp
    · exact hfields _ rfl rfl rfl
  | updateT ts =>
    simp only [stepA]
    rw [updateTranslationsFn_eq]
    apply hfields
    all_goals simp
  | destroy => exact hfields _ rfl rfl rfl
  | resolve i oc => exact resolveFn_concInv i oc s h

lemma stepA_config (a : Act) (s : EngineState) :
    (stepA a s).1.config = s.config := by
  cases a with
  | tick =>
    simp only [stepA]
    split
    · simp
    · rfl
  | visible c now => simp [stepA]
  | enqueue c p now => simp [stepA]
  | observe c i t => simp [stepA]
  | retry c now =>
    simp only [stepA]
    unfold retryFn
    dsimp only
    split
    · rfl
    · simp
  | start now =>
    simp only [stepA]
    unfold startFn
    simp
  | pause => simp [stepA]
  | resume =>
    simp only [stepA]
    unfold resumeFn
    dsimp only
    split
    · simp
    · rfl
  | updateT ts =>
    simp only [stepA]
    rw [updateTranslationsFn_eq]
    simp
  | destroy => rfl
  | resolve i oc => exact resolveFn_config i oc s

lemma runActs_concInv (acts : List Act) (s : EngineState)
    (h : ConcInv s) : ConcInv (runActs s acts) := by
  induction acts generalizing s with
  | nil => exact h
  | cons a acts ih => exact ih _ (stepA_concInv a s h)

lemma runActs_config (acts : List Act) (s : EngineState) :
    (runActs s acts).config = s.config := by
  induction acts generalizing s with
  | nil => rfl
  | cons a acts ih => exact (ih _).trans (stepA_config a s)

lemma initEngine_concInv (cfg : EngineConfig) (chunks : List TextChunk)
    (existing : List (String × String)) :
    ConcInv (initEngine cfg chunks existing) := by
  unfold initEngine
  apply processQueueFn_concInv
  exact ⟨rfl, Nat.zero_le _⟩

lemma initEngine_config (cfg : EngineConfig) (chunks : List TextChunk)
    (existing : List (String × String)) :
    (initEngine cfg chunks existing).config = cfg := by
  unfold initEngine
  simp

/-! ### Queue / in-flight disjointness -/

/-- No id is both queued and pending (in flight). -/
def QueuePendingDisjoint (s : EngineState) : Prop :=
  ∀ q ∈ s.queue, q.chunkId ∉ s.pendingIds

lemma addToQueue_queue_mem (c : String) (i : Nat) (p : Priority) (n : Nat)
    (s : EngineState) {q : QueueItem}
    (hq : q ∈ (addToQueue c i p n s).queue) :
    q ∈ s.queue ∨ (q = ⟨c, i, p, n⟩ ∧ c ∉ s.pendingIds) := by
  unfold addToQueue at hq
  dsimp only at hq
  split at hq
  · exact Or.inl hq
  · split at hq
    · exact Or.inl hq
    · next hpend =>
      split at hq
      all_goals
        cases p <;>
          simp only [setStatusFn_queue, List.mem_cons,
            mem_insertNormalItem] at hq <;>
          tauto

lemma addToQueueDirect_queue_mem (c : String) (i : Nat) (t : String)
    (p : Priority) (n : Nat) (s : EngineState) {q : QueueItem}
    (hq : q ∈ (addToQueueDirect c i t p n s).queue) :
    q ∈ s.queue ∨ (q = ⟨c, i, p, n⟩ ∧ c ∉ s.pendingIds) := by
  unfold addToQueueDirect at hq
  dsimp only at hq
  split at hq
  · exact Or.inl hq
  · split at hq
    · exact Or.inl hq
    · next hpend =>
      rcases p with _ | _ <;>
        (repeat' split at hq) <;>
        simp only [setStatusFn_queue, List.mem_cons,
          mem_insertNormalItem] at hq <;>
        tauto

lemma addToQueue_qpd (c : String) (i : Nat) (p : Priority) (n : Nat)
    (s : EngineState) (h : QueuePendingDisjoint s) :
    QueuePendingDisjoint (addToQueue c i p n s) := by
  intro q hq
  rw [addToQueue_pendingIds]
  rcases addToQueue_queue_mem c i p n s hq with h1 | ⟨rfl, hcp⟩
  · exact h q h1
  · exact hcp

lemma addToQueueDirect_qpd (c : String) (i : Nat) (t : String)
    (p : Priority) (n : Nat) (s : EngineState)
    (h : QueuePendingDisjoint s) :
    QueuePendingDisjoint (addToQueueDirect c i t p n s) := by
  intro q hq
  rw [addToQueueDirect_pendingIds]
  rcases addToQueueDirect_queue_mem c i t p n s hq with h1 | ⟨rfl, hcp⟩
  · exact h q h1
  · exact hcp

lemma lookaheadFrom_qpd (now i fuel : Nat) (s : EngineState)
    (h : QueuePendingDisjoint s) :
    QueuePendingDisjoint (lookaheadFrom now i fuel s) := by
  induction fuel generalizing i s with
  | zero => exact h
  | succ fuel ih =>
    unfold lookaheadFrom
    split
    · exact ih _ _ h
    · split
      · exact ih _ _ h
      · exact ih _ _ (addToQueueDirect_qpd _ _ _ _ _ _ h)

lemma startEnqueue_qpd (now firstN : Nat) (chunks : List TextChunk)
    (enq : Nat) (s : EngineState) (h : QueuePendingDisjoint s) :
    QueuePendingDisjoint (startEnqueue now firstN chunks enq s) := by
  induction chunks generalizing enq s with
  | nil => exact h
  | cons chunk chunks ih =>
    unfold startEnqueue
    split
    · exact h
    · split
      · exact ih _ _ h
      · exact ih _ _ (addToQueueDirect_qpd _ _ _ _ _ _ h)

lemma processQueueFn_qpd (s : EngineState) (h : QueuePendingDisjoint s) :
    QueuePendingDisjoint (processQueueFn s).1 := by
  unfold processQueueFn
  dsimp only
  repeat' split
  · exact h
  · exact h
  · intro q hq
    simp only [setStatusFn_queue, setStatusFn_pendingIds] at hq ⊢
    exact h q hq
  · exact h
  · exact h
  · intro q hq
    simp only [List.mem_filter] at hq
    obtain ⟨hq1, hq2⟩ := hq
    rw [mem_foldl_setAdd']
    push_neg
    refine ⟨h q hq1, ?_⟩
    intro item hitem
    intro hcontra
    apply absurd hq2
    simp only [List.mem_map, decide_not, Bool.not_eq_true', decide_eq_false_iff_not,
      not_not]
    exact ⟨item, hitem, hcontra⟩

lemma setStatusFn_qpd (st : Status) (s : EngineState)
    (h : QueuePendingDisjoint s) : QueuePendingDisjoint (setStatusFn st s) := by
  intro q hq
  rw [setStatusFn_pendingIds]
  rw [setStatusFn_queue] at hq
  exact h q hq

lemma resolveFn_queue (i : Nat) (oc : Option (List String))
    (s : EngineState) : (resolveFn i oc s).1.queue = s.queue := by
  unfold resolveFn
  rcases hfb : s.inflight[i]? with _ | fb
  · simp
  · rcases oc with _ | rs
    · simp [applyFailure_queue]
    · by_cases ht : fb.texts.isEmpty <;> simp [ht, applyResults_queue]

lemma resolveFn_pendingIds_subset (i : Nat) (oc : Option (List String))
    (s : EngineState) {x : String}
    (hx : x ∈ (resolveFn i oc s).1.pendingIds) : x ∈ s.pendingIds := by
  revert hx
  unfold resolveFn
  rcases hfb : s.inflight[i]? with _ | fb
  · simp
  · rcases oc with _ | rs
    · intro hx
      simp only at hx
      have := (applyFailure_pendingIds fb.items
        { s with inflight := s.inflight.eraseIdx i } x).mp (by simpa using hx)
      exact this.1
    · by_cases ht : fb.texts.isEmpty
      · simp [ht]
      · intro hx
        simp only [ht, if_neg] at hx
        exact applyResults_pendingIds_subset fb.items rs
          { s with inflight := s.inflight.eraseIdx i } (by simpa using hx)

lemma resolveFn_qpd (i : Nat) (oc : Option (List String)) (s : EngineState)
    (h : QueuePendingDisjoint s) : QueuePendingDisjoint (resolveFn i oc s).1 := by
  intro q hq
  rw [resolveFn_queue] at hq
  intro hx
  exact h q hq (resolveFn_pendingIds_subset i oc s hx)

lemma stepA_qpd (a : Act) (s : EngineState) (h : QueuePendingDisjoint s) :
    QueuePendingDisjoint (stepA a s).1 := by
  cases a with
  | tick =>
    simp only [stepA]
    split
    · exact processQueueFn_qpd s h
    · exact h
  | visible c now =>
    simp only [stepA]
    unfold onParagraphVisibleFn
    dsimp only
    repeat' split
    · exact h
    · exact h
    · exact h
    · exact lookaheadFrom_qpd _ _ _ _ (addToQueue_qpd _ _ _ _ _ h)
  | enqueue c p now =>
    simp only [stepA]
    unfold enqueueFn
    repeat' split
    · exact h
    · exact h
    · exact addToQueue_qpd _ _ _ _ _ h
  | observe c i t =>
    intro q hq
    simp only [stepA, observeFn_pendingIds]
    simp only [stepA, observeFn_queue] at hq
    exact h q hq
  | retry c now =>
    simp only [stepA]
    unfold retryFn
    dsimp only
    have h₁ : QueuePendingDisjoint
        { s with completedIds := setDel s.completedIds c,
                 pendingIds := setDel s.pendingIds c } := by
      intro q hq hx
      exact h q hq (mem_setDel.mp hx).1
    split
    · exact h₁
    · exact processQueueFn_qpd _ (addToQueueDirect_qpd _ _ _ _ _ _ h₁)
  | start now =>
    simp only [stepA]
    unfold startFn
    exact processQueueFn_qpd _ (startEnqueue_qpd _ _ _ _ _
      (setStatusFn_qpd _ _ (fun q hq hx => h q hq hx)))
  | pause =>
    intro q hq
    simp only [stepA, pauseFn_pendingIds]
    simp only [stepA, pauseFn_queue] at hq
    exact h q hq
  | resume =>
    simp only [stepA]
    unfold resumeFn
    dsimp only
    split
    · apply processQueueFn_qpd
      apply setStatusFn_qpd
      intro q hq hx
      exact h q hq hx
    · exact fun q hq hx => h q hq hx
  | updateT ts =>
    simp only [stepA]
    rw [updateTranslationsFn_eq]
    intro q hq hx
    rw [updFold_queue'] at hq
    have := (updFold_pendingIds ts _ q.chunkId).mp hx
    exact h q hq this.1
  | destroy =>
    intro q hq
    simp only [stepA, destroyFn] at hq
    exact absurd hq (List.not_mem_nil q)
  | resolve i oc => exact resolveFn_qpd i oc s h

lemma runActs_qpd (acts : List Act) (s : EngineState)
    (h : QueuePendingDisjoint s) : QueuePendingDisjoint (runActs s acts) := by
  induction acts generalizing s with
  | nil => exact h
  | cons a acts ih => exact ih _ (stepA_qpd a s h)

lemma initEngine_qpd (cfg : EngineConfig) (chunks : List TextChunk)
    (existing : List (String × String)) :
    QueuePendingDisjoint (initEngine cfg chunks existing) := by
  unfold initEngine
  apply processQueueFn_qpd
  intro q hq
  simp at hq

/-! ### Enqueue idempotence support -/

lemma mem_queueIds {s : EngineState} {c : String} :
    c ∈ queueIds s ↔ ∃ q ∈ s.queue, q.chunkId = c := by
  simp [queueIds]

lemma queue_any_eq_true {s : EngineState} {c : String}
    (h : c ∈ queueIds s) :
    (s.queue.any fun item => item.chunkId = c) = true := by
  rw [List.any_eq_true]
  obtain ⟨q, hq, hqc⟩ := mem_queueIds.mp h
  exact ⟨q, hq, by simp [hqc]⟩

lemma queue_any_eq_false {s : EngineState} {c : String}
    (h : c ∉ queueIds s) :
    (s.queue.any fun item => item.chunkId = c) = false := by
  rw [List.any_eq_false]
  intro q hq
  simp only [decide_eq_true_eq]
  intro hqc
  exact h (mem_queueIds.mpr ⟨q, hq, hqc⟩)

lemma addToQueue_noop_queued {c : String} {i : Nat} {p : Priority} {n : Nat}
    {s : EngineState} (h : c ∈ queueIds s) :
    addToQueue c i p n s = s := by
  unfold addToQueue
  rw [if_pos (queue_any_eq_true h)]

lemma addToQueueDirect_noop_queued {c : String} {i : Nat} {t : String}
    {p : Priority} {n : Nat} {s : EngineState} (h : c ∈ queueIds s) :
    addToQueueDirect c i t p n s = s := by
  unfold addToQueueDirect
  rw [if_pos (queue_any_eq_true h)]

lemma enqueueFn_noop (c : String) (p : Priority) (now : Nat)
    (s : EngineState)
    (h : c ∈ queueIds s ∨ c ∈ s.pendingIds ∨ c ∈ s.completedIds) :
    enqueueFn c p now s = s := by
  unfold enqueueFn
  split
  · rfl
  · next hguard =>
    push_neg at hguard
    rcases h with h | h | h
    · rcases hrec : recGet s.paragraphMap c with _ | info
      · rfl
      · exact addToQueue_noop_queued h
    · exact absurd h hguard.1
    · exact absurd h hguard.2

lemma addToQueue_countQ_insert {c : String} {i : Nat} {p : Priority}
    {n : Nat} {s : EngineState} (hq : c ∉ queueIds s)
    (hp : c ∉ s.pendingIds) :
    countQ c (addToQueue c i p n s).queue = countQ c s.queue + 1 ∧
    c ∈ queueIds (addToQueue c i p n s) := by
  have hany : (s.queue.any fun item => item.chunkId = c) = false :=
    queue_any_eq_false hq
  unfold addToQueue
  simp only [hany, Bool.false_eq_true, if_false]
  rw [if_neg hp]
  dsimp only
  constructor
  · split <;>
      simp only [setStatusFn_queue] <;>
      cases p <;>
      simp [countQ_cons, countQ_insertNormalItem]
  · rw [mem_queueIds]
    split <;>
      refine ⟨⟨c, i, p, n⟩, ?_, rfl⟩ <;>
      simp only [setStatusFn_queue] <;>
      cases p <;>
      simp [mem_insertNormalItem]

lemma addToQueueDirect_countQ_of_mem {c : String} (c' : String) (i : Nat)
    (t : String) (p : Priority) (n : Nat) (s : EngineState)
    (hmem : c ∈ queueIds s) :
    countQ c (addToQueueDirect c' i t p n s).queue = countQ c s.queue ∧
    c ∈ queueIds (addToQueueDirect c' i t p n s) := by
  by_cases hc : c' = c
  · subst hc
    rw [addToQueueDirect_noop_queued hmem]
    exact ⟨rfl, hmem⟩
  · unfold addToQueueDirect
    split
    · exact ⟨rfl, hmem⟩
    · split
      · exact ⟨rfl, hmem⟩
      · dsimp only
        obtain ⟨q, hql, hqc⟩ := mem_queueIds.mp hmem
        by_cases hpm : (recGet s.paragraphMap c').isSome
        · rw [if_pos hpm]
          constructor
          · split <;> simp only [setStatusFn_queue] <;> cases p <;>
              simp [countQ_cons, countQ_insertNormalItem, hc]
          · rw [mem_queueIds]
            split <;> refine ⟨q, ?_, hqc⟩ <;>
              simp only [setStatusFn_queue] <;> cases p <;>
              simp [mem_insertNormalItem, hql]
        · rw [if_neg hpm]
          constructor
          · split <;> simp only [setStatusFn_queue] <;> cases p <;>
              simp [countQ_cons, countQ_insertNormalItem, hc]
          · rw [mem_queueIds]
            split <;> refine ⟨q, ?_, hqc⟩ <;>
              simp only [setStatusFn_queue] <;> cases p <;>
              simp [mem_insertNormalItem, hql]

lemma lookaheadFrom_countQ {c : String} (now i fuel : Nat)
    (s : EngineState) (hmem : c ∈ queueIds s) :
    countQ c (lookaheadFrom now i fuel s).queue = countQ c s.queue ∧
    c ∈ queueIds (lookaheadFrom now i fuel s) := by
  induction fuel generalizing i s with
  | zero => exact ⟨rfl, hmem⟩
  | succ fuel ih =>
    unfold lookaheadFrom
    split
    · exact ih _ _ hmem
    · split
      · exact ih _ _ hmem
      · next chunk _ _ =>
        obtain ⟨h1, h2⟩ := addToQueueDirect_countQ_of_mem chunk.id
          chunk.index chunk.text Priority.normal now s hmem
        obtain ⟨h3, h4⟩ := ih (i + 1) _ h2
        exact ⟨h3.trans h1, h4⟩

lemma onParagraphVisibleFn_countQ_of_mem {c : String} (now : Nat)
    (s : EngineState) (hmem : c ∈ queueIds s) :
    countQ c (onParagraphVisibleFn c now s).queue = countQ c s.queue ∧
    c ∈ queueIds (onParagraphVisibleFn c now s) := by
  unfold onParagraphVisibleFn
  split
  · exact ⟨rfl, hmem⟩
  · split
    · exact ⟨rfl, hmem⟩
    · split
      · exact ⟨rfl, hmem⟩
      · dsimp only
        rw [addToQueue_noop_queued hmem]
        exact lookaheadFrom_countQ _ _ _ _ hmem

lemma onParagraphVisibleFn_countQ_insert {c : String} (now : Nat)
    (s : EngineState) {info : ParagraphInfo}
    (hst : s.isStarted = true)
    (hrec : recGet s.paragraphMap c = some info)
    (hq : c ∉ queueIds s) (hp : c ∉ s.pendingIds)
    (hc : c ∉ s.completedIds) :
    countQ c (onParagraphVisibleFn c now s).queue = countQ c s.queue + 1 ∧
    c ∈ queueIds (onParagraphVisibleFn c now s) := by
  unfold onParagraphVisibleFn
  rw [if_neg (by simp [hst]), if_neg (by simp [hp, hc]), hrec]
  dsimp only
  obtain ⟨h1, h2⟩ :=
    @addToQueue_countQ_insert c info.chunkIndex Priority.normal now s hq hp
  obtain ⟨h3, h4⟩ := lookaheadFrom_countQ now (info.chunkIndex + 1)
    (min (info.chunkIndex + 1 + s.config.lookaheadCount)
      s.allChunks.length - (info.chunkIndex + 1))
    (addToQueue c info.chunkIndex Priority.normal now s) h2
  exact ⟨h3.trans h1, h4⟩

lemma enqueueFn_countQ_insert {c : String} (p : Priority) (now : Nat)
    (s : EngineState) {info : ParagraphInfo}
    (hrec : recGet s.paragraphMap c = some info)
    (hq : c ∉ queueIds s) (hp : c ∉ s.pendingIds)
    (hc : c ∉ s.completedIds) :
    countQ c (enqueueFn c p now s).queue = countQ c s.queue + 1 ∧
    c ∈ queueIds (enqueueFn c p now s) := by
  unfold enqueueFn
  rw [if_neg (by simp [hp, hc]), hrec]
  exact addToQueue_countQ_insert hq hp

/-- The texts captured for a batch at dispatch time. -/
def batchTexts (s : EngineState) (batch : List QueueItem) : List String :=
  (batch.map (fun item =>
    ((recGet s.paragraphMap item.chunkId).map
      (fun info => info.text)).getD "")).filter (fun t => t ≠ "")

lemma processQueueFn_dispatch (s : EngineState)
    (h1 : s.isPaused = false)
    (h2 : s.activeRequests < s.config.maxConcurrentRequests)
    (h3 : s.queue.isEmpty = false)
    (h4 : (buildBatch s).isEmpty = false) :
    (processQueueFn s).1.inflight = s.inflight ++
      [InflightBatch.mk (buildBatch s) (batchTexts s (buildBatch s))] ∧
    (processQueueFn s).1.completedIds = s.completedIds ∧
    (processQueueFn s).1.activeRequests = s.activeRequests + 1 ∧
    (∀ x, x ∈ (processQueueFn s).1.pendingIds ↔
      x ∈ s.pendingIds ∨ ∃ b ∈ buildBatch s, b.chunkId = x) := by
  unfold processQueueFn
  rw [if_neg (by simp [h1]), if_neg (by omega)]
  rw [h3]
  simp only [Bool.false_eq_true, if_false]
  rw [h4]
  simp only [Bool.false_eq_true, if_false]
  refine ⟨by trivial, by trivial, by trivial, ?_⟩
  intro x
  exact mem_foldl_setAdd'

lemma processQueueFn_dispatch_exists (s : EngineState)
    (h1 : s.isPaused = false)
    (h2 : s.activeRequests < s.config.maxConcurrentRequests)
    (h3 : s.queue.isEmpty = false)
    (h4 : (buildBatch s).isEmpty = false) :
    ∃ fb : InflightBatch,
      (processQueueFn s).1.inflight = s.inflight ++ [fb] ∧
      fb.items = buildBatch s ∧
      (processQueueFn s).1.completedIds = s.completedIds ∧
      (∀ x, x ∈ (processQueueFn s).1.pendingIds ↔
        x ∈ s.pendingIds ∨ ∃ b ∈ buildBatch s, b.chunkId = x) := by
  obtain ⟨hinf, hcomp, hact, hpend⟩ := processQueueFn_dispatch s h1 h2 h3 h4
  exact ⟨_, hinf, rfl, hcomp, hpend⟩

/-! ### Visibility signal support -/

lemma onParagraphVisibleFn_not_started (c : String) (now : Nat)
    (s : EngineState) (h : s.isStarted = false) :
    onParagraphVisibleFn c now s = s := by
  unfold onParagraphVisibleFn
  rw [if_pos (by simp [h])]

lemma chunk_index_of_getElem? {chunks : List TextChunk} {i : Nat}
    {chunk : TextChunk} (hidx : chunksIndexed chunks)
    (h : chunks[i]? = some chunk) : chunk.index = i := by
  obtain ⟨hlt, hget⟩ := List.getElem?_eq_some.mp h
  have := hidx i hlt
  rw [List.get_eq_getElem] at this
  rw [hget] at this
  exact this

lemma lookaheadFrom_queue_mem (now : Nat) (i fuel : Nat) (s : EngineState)
    (hidx : chunksIndexed s.allChunks) (i₀ : Nat) (hi : i₀ ≤ i)
    {q : QueueItem} (hq : q ∈ (lookaheadFrom now i fuel s).queue) :
    q ∈ s.queue ∨
      (i₀ ≤ q.chunkIndex ∧ q.priority = Priority.normal ∧
       q.chunkId ∉ s.pendingIds ∧ q.chunkId ∉ s.completedIds ∧
       q.chunkIndex < i + fuel) := by
  induction fuel generalizing i s with
  | zero => exact Or.inl hq
  | succ fuel ih =>
    unfold lookaheadFrom at hq
    revert hq
    split
    · intro hq
      rcases ih (i + 1) s hidx (by omega) hq with h | h
      · exact Or.inl h
      · exact Or.inr ⟨h.1, h.2.1, h.2.2.1, h.2.2.2.1, by omega⟩
    · split
      · intro hq
        rcases ih (i + 1) s hidx (by omega) hq with h | h
        · exact Or.inl h
        · exact Or.inr ⟨h.1, h.2.1, h.2.2.1, h.2.2.2.1, by omega⟩
      · next chunk hchunk hskip =>
        intro hq
        push_neg at hskip
        have hchunkidx : chunk.index = i :=
          chunk_index_of_getElem? hidx hchunk
        have hidx' : chunksIndexed (addToQueueDirect chunk.id chunk.index
            chunk.text Priority.normal now s).allChunks := by
          rw [addToQueueDirect_allChunks]
          exact hidx
        rcases ih (i + 1) _ hidx' (by omega) hq with h | h
        · rcases addToQueueDirect_queue_mem chunk.id chunk.index chunk.text
            Priority.normal now s h with h' | ⟨rfl, hcp⟩
          · exact Or.inl h'
          · exact Or.inr ⟨by simpa [hchunkidx] using hi, rfl,
              by simpa using hskip.2, by simpa using hskip.1,
              (show chunk.index < i + (fuel + 1) by omega)⟩
        · rw [addToQueueDirect_pendingIds] at h
          rw [addToQueueDirect_completedIds] at h
          exact Or.inr ⟨h.1, h.2.1, h.2.2.1, h.2.2.2.1, by omega⟩

lemma onParagraphVisibleFn_queue_mem {c : String} {now : Nat}
    {s : EngineState} {info : ParagraphInfo}
    (hst : s.isStarted = true)
    (hrec : recGet s.paragraphMap c = some info)
    (hp : c ∉ s.pendingIds) (hc : c ∉ s.completedIds)
    (hidx : chunksIndexed s.allChunks) {q : QueueItem}
    (hq : q ∈ (onParagraphVisibleFn c now s).queue) :
    q ∈ s.queue ∨
      (info.chunkIndex ≤ q.chunkIndex ∧
       q.priority = Priority.normal ∧
       q.chunkId ∉ s.pendingIds ∧ q.chunkId ∉ s.completedIds ∧
       q.chunkIndex ≤ info.chunkIndex + s.config.lookaheadCount) := by
  unfold onParagraphVisibleFn at hq
  rw [if_neg (by simp [hst]), if_neg (by simp [hp, hc]), hrec] at hq
  dsimp only at hq
  have hidx₁ : chunksIndexed (addToQueue c info.chunkIndex Priority.normal
      now s).allChunks := by
    rw [addToQueue_allChunks]
    exact hidx
  have hfuel : min (info.chunkIndex + 1 + s.config.lookaheadCount)
      s.allChunks.length - (info.chunkIndex + 1) ≤
      s.config.lookaheadCount := by
    omega
  rcases lookaheadFrom_queue_mem now (info.chunkIndex + 1) _ _ hidx₁
      (info.chunkIndex + 1) (le_refl _) hq with h | h
  · rcases addToQueue_queue_mem c info.chunkIndex Priority.normal now s h
      with h' | ⟨rfl, hcp⟩
    · exact Or.inl h'
    · exact Or.inr ⟨le_refl _, rfl, hp, hc, by simp⟩
  · rw [addToQueue_pendingIds] at h
    rw [addToQueue_completedIds] at h
    refine Or.inr ⟨by omega, h.2.1, h.2.2.1, h.2.2.2.1, ?_⟩
    have := h.2.2.2.2
    omega

/-! ### Retry / resume dispatch support -/

lemma addToQueueDirect_high (c : String) (i : Nat) (t : String) (n : Nat)
    (s : EngineState) (hq : c ∉ queueIds s) (hp : c ∉ s.pendingIds) :
    (∃ info, recGet (addToQueueDirect c i t Priority.high n s).paragraphMap
      c = some info) ∧
    (addToQueueDirect c i t Priority.high n s).queue =
      ⟨c, i, Priority.high, n⟩ :: s.queue := by
  have hany : (s.queue.any fun item => item.chunkId = c) = false :=
    queue_any_eq_false hq
  unfold addToQueueDirect
  simp only [hany, Bool.false_eq_true, if_false]
  rw [if_neg hp]
  by_cases hpm : (recGet s.paragraphMap c).isSome
  · rw [if_pos hpm]
    obtain ⟨info, hinfo⟩ := Option.isSome_iff_exists.mp hpm
    constructor
    · refine ⟨info, ?_⟩
      split <;> simp only [setStatusFn_paragraphMap] <;> exact hinfo
    · split <;> simp only [setStatusFn_queue]
  · rw [if_neg hpm]
    constructor
    · refine ⟨⟨i, t⟩, ?_⟩
      split <;> simp only [setStatusFn_paragraphMap] <;>
        exact recGet_append_self (by simpa using hpm)
    · split <;> simp only [setStatusFn_queue]

lemma buildBatch_congr {s t : EngineState} (hq : t.queue = s.queue)
    (hm : t.paragraphMap = s.paragraphMap) (hc : t.config = s.config) :
    buildBatch t = buildBatch s := by
  unfold buildBatch
  rw [hq, hm, hc]

lemma resolve_success_spec (i : Nat) (rs : List String) (s : EngineState)
    {fb : InflightBatch} (hfb : s.inflight[i]? = some fb)
    (ht : fb.texts.isEmpty = false) :
    (resolveFn i (some rs) s).2 = expectedEvents fb.items rs ∧
    (∀ x, x ∈ (resolveFn i (some rs) s).1.completedIds ↔
      x ∈ s.completedIds ∨ x ∈ goodIds fb.items rs) := by
  unfold resolveFn
  rw [hfb]
  simp only [ht, Bool.false_eq_true, if_false]
  constructor
  · exact applyResults_events fb.items rs _
  · intro x
    have h := applyResults_completedIds fb.items rs
      { s with inflight := s.inflight.eraseIdx i }
    simp only [h]
    exact mem_foldl_setAdd

/-! ## Claim theorems -/

/-- Configuration and document used for the C1 counterexample: a single
paragraph whose source text (5 characters) exceeds the configured batch
character budget of 3. -/
def c1FailConfig : EngineConfig :=
  { defaultConfig with maxBatchChars := 3, translateFirstN := 1 }

/-- The engine state right after `start` in the C1 counterexample run: the
oversized paragraph has been dispatched as a batch. -/
def c1FailState : EngineState :=
  runActs (initEngine c1FailConfig [⟨"p1", 0, "hello"⟩] []) [Act.start 0]

/-- C1, counterexample: the claim asserts the cumulative source character
count of every dispatched batch is at most the configured maximum batch
characters.  `buildBatch` adds the anchor (head) item without any character
check, so a batch whose anchor alone exceeds the budget is still
dispatched: with `maxBatchChars = 3`, the 5-character paragraph is
dispatched as a batch of cumulative size 5. -/
theorem c1_counterexample :
    ¬ (∀ fb ∈ c1FailState.inflight,
        batchChars c1FailState.paragraphMap fb.items ≤
          c1FailState.config.maxBatchChars) := by decide

/-- C1, amended: for every engine state, the batch returned by
`buildBatch` (which `processQueue` dispatches verbatim) is a strictly
consecutive ascending run of ordinals with no gaps; its member count is at
most `max 1 maxBatchSize` (the anchor is taken unconditionally); and its
cumulative source character count is at most
`max maxBatchChars (anchor length)` — the character-budget check happens
before adding each item after the anchor, so the budget only binds from
the second member on. -/
theorem c1_batch_bounds_amended (s : EngineState) :
    isConsecutiveRun (buildBatch s) = true ∧
    (buildBatch s).length ≤ max 1 s.config.maxBatchSize ∧
    batchChars s.paragraphMap (buildBatch s) ≤
      max s.config.maxBatchChars (anchorChars s) :=
  ⟨buildBatch_consecutive s, buildBatch_length_le s, buildBatch_chars_le s⟩

/-- C2: starting from any initialized engine and running any sequence of
reaction steps (ticks, visibility signals, enqueue / start / retry /
resume / pause / updateTranslations / destroy operations and batch
resolutions), the number of in-flight batches always equals the
`activeRequests` counter and never exceeds the configured maximum
concurrent requests; and every resolution (success or failure alike)
removes exactly one outstanding batch and decrements the counter exactly
once. -/
theorem c2_concurrency_bound :
    (∀ (cfg : EngineConfig) (chunks : List TextChunk)
        (existing : List (String × String)) (acts : List Act),
      (runActs (initEngine cfg chunks existing) acts).activeRequests =
        (runActs (initEngine cfg chunks existing) acts).inflight.length ∧
      (runActs (initEngine cfg chunks existing) acts).inflight.length ≤
        cfg.maxConcurrentRequests) ∧
    (∀ (s : EngineState) (i : Nat) (oc : Option (List String)),
      (resolveFn i oc s).1.activeRequests =
        s.activeRequests -
          (if (s.inflight[i]?).isSome then 1 else 0) ∧
      (resolveFn i oc s).1.inflight.length =
        s.inflight.length -
          (if (s.inflight[i]?).isSome then 1 else 0)) := by
  constructor
  · intro cfg chunks existing acts
    obtain ⟨h1, h2⟩ :=
      runActs_concInv acts _ (initEngine_concInv cfg chunks existing)
    have hcfg : (runActs (initEngine cfg chunks existing) acts).config =
        cfg :=
      (runActs_config acts (initEngine cfg chunks existing)).trans
        (initEngine_config cfg chunks existing)
    refine ⟨h1, ?_⟩
    rw [← h1]
    rw [hcfg] at h2
    exact h2
  · intro s i oc
    refine ⟨resolveFn_activeRequests i oc s, ?_⟩
    rw [resolveFn_inflight]
    by_cases hs : (s.inflight[i]?).isSome
    · rw [if_pos hs, if_pos hs, List.length_eraseIdx]
      have hlt : i < s.inflight.length := by
        obtain ⟨fb, hfb⟩ := Option.isSome_iff_exists.mp hs
        obtain ⟨hlt, _⟩ := List.getElem?_eq_some.mp hfb
        exact hlt
      simp [hlt]
    · rw [if_neg hs, if_neg hs]
      simp

/-- Configuration for the C3 counterexample: batches of one, two
paragraphs auto-queued on start. -/
def c3FailConfig : EngineConfig :=
  { defaultConfig with maxBatchSize := 1, translateFirstN := 2 }

/-- The C3 counterexample run: `start` queues both paragraphs and
dispatches only the first (batch size 1), leaving `q` in the queue; then
`updateTranslations` supplies a translation for the still-queued `q`. -/
def c3FailState : EngineState :=
  runActs (initEngine c3FailConfig [⟨"p", 0, "a"⟩, ⟨"q", 1, "b"⟩] [])
    [Act.start 0, Act.updateT [("q", "x")]]

/-- C3, counterexample: the claim asserts the queued, in-flight and
completed id sets are pairwise disjoint at every observable instant.
`updateTranslations` adds every supplied key to the completed set and
removes it from the pending set, but does not remove it from the queue, so
a queued paragraph handed in through `updateTranslations` is simultaneously
queued and completed. -/
theorem c3_counterexample :
    ¬ (∀ q ∈ c3FailState.queue,
        q.chunkId ∉ c3FailState.completedIds) := by decide

/-- C3, amended: the queued and in-flight id sets are disjoint at every
reachable state — an id never has a queue entry while it is part of a
dispatched unresolved batch.  Disjointness against the completed set does
not hold in general: `updateTranslations` of a currently queued id (and a
successful resolution of a paragraph re-queued by `retry` while its batch
was still in flight) leaves the id both queued and completed. -/
theorem c3_queue_inflight_disjoint_amended (cfg : EngineConfig)
    (chunks : List TextChunk) (existing : List (String × String))
    (acts : List Act) :
    ∀ q ∈ (runActs (initEngine cfg chunks existing) acts).queue,
      q.chunkId ∉ (runActs (initEngine cfg chunks existing) acts).pendingIds :=
  runActs_qpd acts _ (initEngine_qpd cfg chunks existing)

/-- Configuration for the C3 witness run: dispatch blocked by a zero
concurrency limit so the queued item stays in the queue. -/
def c3WitConfig : EngineConfig :=
  { defaultConfig with maxConcurrentRequests := 0, translateFirstN := 1 }

/-- Witness for the amended C3 theorem at a concrete reachable state with
a non-empty queue. -/
theorem c3_queue_inflight_disjoint_amended_witness :
    (⟨"w", 0, Priority.normal, 0⟩ : QueueItem) ∈
      (runActs (initEngine c3WitConfig [⟨"w", 0, "hi"⟩] [])
        [Act.start 0]).queue ∧
    (⟨"w", 0, Priority.normal, 0⟩ : QueueItem).chunkId ∉
      (runActs (initEngine c3WitConfig [⟨"w", 0, "hi"⟩] [])
        [Act.start 0]).pendingIds :=
  ⟨by decide,
   c3_queue_inflight_disjoint_amended c3WitConfig [⟨"w", 0, "hi"⟩] []
     [Act.start 0] ⟨"w", 0, Priority.normal, 0⟩ (by decide)⟩

/-- C4: enqueueing is idempotent.  (1) An enqueue of an id that is already
queued, in flight, or completed returns the state literally unchanged.
(2) Two consecutive `enqueue` calls for a registered, not yet handled
paragraph leave exactly one queue entry for it.  (3) Two consecutive
visibility signals for a registered, not yet handled paragraph on a
started engine leave exactly one queue entry for it. -/
theorem c4_idempotent_enqueue :
    (∀ (c : String) (p : Priority) (now : Nat) (s : EngineState),
      c ∈ queueIds s ∨ c ∈ s.pendingIds ∨ c ∈ s.completedIds →
      enqueueFn c p now s = s) ∧
    (∀ (c : String) (p : Priority) (now now' : Nat) (s : EngineState)
        (info : ParagraphInfo),
      recGet s.paragraphMap c = some info → c ∉ queueIds s →
      c ∉ s.pendingIds → c ∉ s.completedIds →
      countQ c (enqueueFn c p now' (enqueueFn c p now s)).queue = 1) ∧
    (∀ (c : String) (now now' : Nat) (s : EngineState)
        (info : ParagraphInfo),
      s.isStarted = true → recGet s.paragraphMap c = some info →
      c ∉ queueIds s → c ∉ s.pendingIds → c ∉ s.completedIds →
      countQ c (onParagraphVisibleFn c now'
        (onParagraphVisibleFn c now s)).queue = 1) := by
  have hzero : ∀ (c : String) (s : EngineState), c ∉ queueIds s →
      countQ c s.queue = 0 := by
    intro c s hq
    rw [countQ_eq_zero]
    intro q hql hqc
    exact hq (mem_queueIds.mpr ⟨q, hql, hqc⟩)
  refine ⟨enqueueFn_noop, ?_, ?_⟩
  · intro c p now now' s info hrec hq hp hc
    obtain ⟨h1, h2⟩ := enqueueFn_countQ_insert p now s hrec hq hp hc
    rw [enqueueFn_noop c p now' _ (Or.inl h2), h1, hzero c s hq]
  · intro c now now' s info hst hrec hq hp hc
    obtain ⟨h1, h2⟩ :=
      onParagraphVisibleFn_countQ_insert now s hst hrec hq hp hc
    obtain ⟨h3, _⟩ :=
      onParagraphVisibleFn_countQ_of_mem now' (onParagraphVisibleFn c now s)
        h2
    rw [h3, h1, hzero c s hq]

/-- Configuration for the C4 witness: nothing auto-queued on start, no
dispatch capacity, so enqueues land in the queue and stay there. -/
def c4WitConfig : EngineConfig :=
  { defaultConfig with maxConcurrentRequests := 0, translateFirstN := 0 }

/-- The C4 witness base state: one registered paragraph, engine started,
nothing queued, pending or completed. -/
def c4WitState : EngineState :=
  runActs (initEngine c4WitConfig [⟨"p", 0, "hi"⟩, ⟨"q", 1, "ho"⟩] [])
    [Act.observe "p" 0 "hi", Act.start 5]

/-- The C4 witness state with `p` enqueued once. -/
def c4WitQueued : EngineState :=
  enqueueFn "p" Priority.normal 7 c4WitState

/-- Witness for C4 at concrete inputs: a duplicate enqueue is a literal
no-op, and a double enqueue and a double visibility signal each leave
exactly one queue entry. -/
theorem c4_idempotent_enqueue_witness :
    (("p" ∈ queueIds c4WitQueued ∨ "p" ∈ c4WitQueued.pendingIds ∨
        "p" ∈ c4WitQueued.completedIds) ∧
      enqueueFn "p" Priority.normal 8 c4WitQueued = c4WitQueued) ∧
    (recGet c4WitState.paragraphMap "p" = some ⟨0, "hi"⟩ ∧
      "p" ∉ queueIds c4WitState ∧ "p" ∉ c4WitState.pendingIds ∧
      "p" ∉ c4WitState.completedIds ∧
      countQ "p" (enqueueFn "p" Priority.normal 8
        (enqueueFn "p" Priority.normal 7 c4WitState)).queue = 1) ∧
    (c4WitState.isStarted = true ∧
      countQ "p" (onParagraphVisibleFn "p" 8
        (onParagraphVisibleFn "p" 7 c4WitState)).queue = 1) :=
  ⟨⟨by decide,
    c4_idempotent_enqueue.1 "p" Priority.normal 8 c4WitQueued
      (by decide)⟩,
   ⟨by decide, by decide, by decide, by decide,
    c4_idempotent_enqueue.2.1 "p" Priority.normal 7 8 c4WitState ⟨0, "hi"⟩
      (by decide) (by decide) (by decide) (by decide)⟩,
   ⟨by decide,
    c4_idempotent_enqueue.2.2 "p" 7 8 c4WitState ⟨0, "hi"⟩ (by decide)
      (by decide) (by decide) (by decide) (by decide)⟩⟩

/-- C5: when a dispatched batch resolves with a result array, the results
are applied positionally and per paragraph: the emitted notifications are
exactly one per batch position — a completion for every position holding a
non-empty string, an error for every empty or missing position (such a
paragraph is not newly completed); the completed set grows by exactly the
ids at non-empty positions; and every id newly completed got a completion
notification carrying a non-empty translation. -/
theorem c5_positional_result_mapping (s : EngineState) (i : Nat)
    (rs : List String) (fb : InflightBatch)
    (hfb : s.inflight[i]? = some fb) (ht : fb.texts.isEmpty = false) :
    (resolveFn i (some rs) s).2 = expectedEvents fb.items rs ∧
    (∀ x, x ∈ (resolveFn i (some rs) s).1.completedIds ↔
      x ∈ s.completedIds ∨ x ∈ goodIds fb.items rs) ∧
    (∀ x, x ∈ goodIds fb.items rs →
      ∃ t, t ≠ "" ∧ Event.complete x t ∈ (resolveFn i (some rs) s).2) := by
  obtain ⟨h1, h2⟩ := resolve_success_spec i rs s hfb ht
  refine ⟨h1, h2, ?_⟩
  intro x hx
  obtain ⟨t, htne, hmem⟩ := goodIds_complete_mem hx
  exact ⟨t, htne, by rw [h1]; exact hmem⟩

/-- The C5 witness run: four contiguous paragraphs dispatched as one batch
on `start`. -/
def c5WitState : EngineState :=
  runActs (initEngine { defaultConfig with translateFirstN := 4 }
    [⟨"p0", 0, "s0"⟩, ⟨"p1", 1, "s1"⟩, ⟨"p2", 2, "s2"⟩, ⟨"p3", 3, "s3"⟩]
    []) [Act.start 0]

/-- The batch dispatched in the C5 witness run. -/
def c5WitBatch : InflightBatch :=
  ⟨[⟨"p0", 0, Priority.normal, 0⟩, ⟨"p1", 1, Priority.normal, 0⟩,
    ⟨"p2", 2, Priority.normal, 0⟩, ⟨"p3", 3, Priority.normal, 0⟩],
   ["s0", "s1", "s2", "s3"]⟩

/-- Witness for C5: the spec scenario — a 4-paragraph batch whose result
is empty at position 2 — resolved at a concrete reachable state: exactly
paragraph `p2` errors, `p0`, `p1`, `p3` complete. -/
theorem c5_positional_result_mapping_witness :
    (c5WitState.inflight[0]? = some c5WitBatch ∧
      c5WitBatch.texts.isEmpty = false) ∧
    ((resolveFn 0 (some ["T0", "T1", "", "T3"]) c5WitState).2 =
        expectedEvents c5WitBatch.items ["T0", "T1", "", "T3"] ∧
      (∀ x, x ∈ (resolveFn 0 (some ["T0", "T1", "", "T3"])
          c5WitState).1.completedIds ↔
        x ∈ c5WitState.completedIds ∨
          x ∈ goodIds c5WitBatch.items ["T0", "T1", "", "T3"]) ∧
      (∀ x, x ∈ goodIds c5WitBatch.items ["T0", "T1", "", "T3"] →
        ∃ t, t ≠ "" ∧ Event.complete x t ∈
          (resolveFn 0 (some ["T0", "T1", "", "T3"]) c5WitState).2)) ∧
    expectedEvents c5WitBatch.items ["T0", "T1", "", "T3"] =
      [Event.complete "p0" "T0", Event.complete "p1" "T1",
       Event.error "p2", Event.complete "p3" "T3"] :=
  ⟨⟨by decide, by decide⟩,
   c5_positional_result_mapping c5WitState 0 ["T0", "T1", "", "T3"]
     c5WitBatch (by decide) (by decide),
   by decide⟩

/-- C6: when a dispatched batch fails as a whole (the translate call
rejects), exactly one error notification is emitted per member paragraph,
no paragraph is marked completed (the completed set, the queue and the
translation record are untouched), the members — and only they — leave
the in-flight id set, and only this batch leaves the outstanding request
list. -/
theorem c6_batch_failure_reverts (s : EngineState) (i : Nat)
    (fb : InflightBatch) (hfb : s.inflight[i]? = some fb) :
    (resolveFn i none s).2 =
      fb.items.map (fun item => Event.error item.chunkId) ∧
    (resolveFn i none s).1.completedIds = s.completedIds ∧
    (resolveFn i none s).1.queue = s.queue ∧
    (resolveFn i none s).1.translations = s.translations ∧
    (resolveFn i none s).1.inflight = s.inflight.eraseIdx i ∧
    (∀ x, x ∈ (resolveFn i none s).1.pendingIds ↔
      x ∈ s.pendingIds ∧
        x ∉ fb.items.map (fun item => item.chunkId)) := by
  unfold resolveFn
  rw [hfb]
  refine ⟨?_, ?_, ?_, ?_, ?_, ?_⟩
  · simpa using applyFailure_events fb.items
      { s with inflight := s.inflight.eraseIdx i }
  · simpa using applyFailure_completedIds fb.items
      { s with inflight := s.inflight.eraseIdx i }
  · simpa using applyFailure_queue fb.items
      { s with inflight := s.inflight.eraseIdx i }
  · simpa using applyFailure_translations fb.items
      { s with inflight := s.inflight.eraseIdx i }
  · simpa using applyFailure_inflight fb.items
      { s with inflight := s.inflight.eraseIdx i }
  · intro x
    simpa using applyFailure_pendingIds fb.items
      { s with inflight := s.inflight.eraseIdx i } x

/-- The C6 witness run: two contiguous paragraphs dispatched as one batch
on `start`. -/
def c6WitState : EngineState :=
  runActs (initEngine { defaultConfig with translateFirstN := 2 }
    [⟨"a0", 0, "t0"⟩, ⟨"a1", 1, "t1"⟩] []) [Act.start 0]

/-- The batch dispatched in the C6 witness run. -/
def c6WitBatch : InflightBatch :=
  ⟨[⟨"a0", 0, Priority.normal, 0⟩, ⟨"a1", 1, Priority.normal, 0⟩],
   ["t0", "t1"]⟩

/-- Witness for C6 at a concrete reachable state. -/
theorem c6_batch_failure_reverts_witness :
    c6WitState.inflight[0]? = some c6WitBatch ∧
    ((resolveFn 0 none c6WitState).2 =
        c6WitBatch.items.map (fun item => Event.error item.chunkId) ∧
      (resolveFn 0 none c6WitState).1.completedIds =
        c6WitState.completedIds ∧
      (resolveFn 0 none c6WitState).1.queue = c6WitState.queue ∧
      (resolveFn 0 none c6WitState).1.translations =
        c6WitState.translations ∧
      (resolveFn 0 none c6WitState).1.inflight =
        c6WitState.inflight.eraseIdx 0 ∧
      (∀ x, x ∈ (resolveFn 0 none c6WitState).1.pendingIds ↔
        x ∈ c6WitState.pendingIds ∧
          x ∉ c6WitBatch.items.map (fun item => item.chunkId))) :=
  ⟨by decide, c6_batch_failure_reverts c6WitState 0 c6WitBatch (by decide)⟩

/-- Configuration for the C7 counterexample: concurrency 1, batch size 1,
three paragraphs auto-queued on start. -/
def c7FailConfig : EngineConfig :=
  { defaultConfig with
    maxConcurrentRequests := 1
    maxBatchSize := 1
    translateFirstN := 3 }

/-- The C7 counterexample run: after `start`, paragraph `r` is in flight
(filling the concurrency budget) and `q`, `p` remain queued at normal
priority. -/
def c7FailState : EngineState :=
  runActs (initEngine c7FailConfig
    [⟨"r", 0, "a"⟩, ⟨"q", 1, "b"⟩, ⟨"p", 2, "c"⟩] []) [Act.start 0]

/-- C7, counterexample: the claim asserts `retry(p)` in any engine state
places `p` at the front of the queue.  When `p` already has a queue entry,
`addToQueueDirect` hits its duplicate guard and returns without moving the
entry, so `p` stays behind `q`. -/
theorem c7_counterexample :
    "p" ∈ queueIds c7FailState ∧
    ((retryFn "p" 5 c7FailState).1.queue.head?.map
      (fun q => q.chunkId)) = some "q" ∧
    "p" ∈ queueIds (retryFn "p" 5 c7FailState).1 := by decide

/-- C7, amended: `retry(p)` always removes `p` from the completed and
pending sets (in any state, `p` is not completed afterwards); and whenever
`p` occurs in the chunk list, is not already queued, the engine is not
paused and the concurrency budget has room, the immediate `processQueue`
call inside `retry` dispatches — before any scheduled tick — a new batch
whose first member is the high-priority entry for `p`, leaving `p` in
flight. -/
theorem c7_retry_amended :
    (∀ (c : String) (now : Nat) (s : EngineState),
      c ∉ (retryFn c now s).1.completedIds) ∧
    (∀ (c : String) (now : Nat) (s : EngineState) (chunk : TextChunk),
      s.allChunks.find? (fun ch => ch.id = c) = some chunk →
      c ∉ queueIds s → s.isPaused = false →
      s.activeRequests < s.config.maxConcurrentRequests →
      ∃ fb, (retryFn c now s).1.inflight = s.inflight ++ [fb] ∧
        fb.items.head? =
          some ⟨c, chunk.index, Priority.high, now⟩ ∧
        c ∈ (retryFn c now s).1.pendingIds) := by
  constructor
  · intro c now s
    unfold retryFn
    dsimp only
    split
    · exact not_mem_setDel_self
    · rw [processQueueFn_completedIds, addToQueueDirect_completedIds]
      exact not_mem_setDel_self
  · intro c now s chunk hfind hq hpause hcap
    simp only [retryFn, hfind]
    obtain ⟨⟨info, hinfo⟩, hqueue⟩ :=
      addToQueueDirect_high c chunk.index chunk.text now
        { s with
          completedIds := setDel s.completedIds c
          pendingIds := setDel s.pendingIds c }
        hq not_mem_setDel_self
    have hhead := buildBatch_head? hqueue hinfo
    have h1 : (addToQueueDirect c chunk.index chunk.text Priority.high now
        { s with
          completedIds := setDel s.completedIds c
          pendingIds := setDel s.pendingIds c }).isPaused = false := by
      rw [addToQueueDirect_isPaused]
      exact hpause
    have h2 : (addToQueueDirect c chunk.index chunk.text Priority.high now
        { s with
          completedIds := setDel s.completedIds c
          pendingIds := setDel s.pendingIds c }).activeRequests <
        (addToQueueDirect c chunk.index chunk.text Priority.high now
          { s with
            completedIds := setDel s.completedIds c
            pendingIds := setDel s.pendingIds c
          }).config.maxConcurrentRequests := by
      rw [addToQueueDirect_activeRequests, addToQueueDirect_config]
      exact hcap
    have h3 : (addToQueueDirect c chunk.index chunk.text Priority.high now
        { s with
          completedIds := setDel s.completedIds c
          pendingIds := setDel s.pendingIds c }).queue.isEmpty =
        false := by
      rw [hqueue]
      rfl
    have h4 : (buildBatch (addToQueueDirect c chunk.index chunk.text
        Priority.high now
        { s with
          completedIds := setDel s.completedIds c
          pendingIds := setDel s.pendingIds c })).isEmpty = false := by
      rw [List.isEmpty_eq_false]
      intro hcontra
      rw [hcontra] at hhead
      exact Option.noConfusion hhead
    obtain ⟨fb, hinf, hitems, hcomp, hpend⟩ :=
      processQueueFn_dispatch_exists _ h1 h2 h3 h4
    refine ⟨fb, ?_, ?_, ?_⟩
    · rw [hinf, addToQueueDirect_inflight]
    · rw [hitems]
      exact hhead
    · rw [hpend]
      refine Or.inr ⟨_, List.mem_of_mem_head? (by rw [hhead]; rfl), rfl⟩

/-- The C7 witness run: one paragraph, dispatched and in flight after
`start`, so `retry` on it strips it from completed/pending and
immediately re-dispatches it. -/
def c7WitState : EngineState :=
  runActs (initEngine { defaultConfig with translateFirstN := 1 }
    [⟨"p", 0, "hi"⟩] []) [Act.start 0]

/-- Witness for the amended C7 theorem at a concrete reachable state. -/
theorem c7_retry_amended_witness :
    ("p" ∉ (retryFn "p" 9 c7WitState).1.completedIds) ∧
    (c7WitState.allChunks.find? (fun ch => ch.id = "p") =
        some ⟨"p", 0, "hi"⟩ ∧
      "p" ∉ queueIds c7WitState ∧ c7WitState.isPaused = false ∧
      c7WitState.activeRequests <
        c7WitState.config.maxConcurrentRequests ∧
      ∃ fb, (retryFn "p" 9 c7WitState).1.inflight =
          c7WitState.inflight ++ [fb] ∧
        fb.items.head? = some ⟨"p", 0, Priority.high, 9⟩ ∧
        "p" ∈ (retryFn "p" 9 c7WitState).1.pendingIds) :=
  ⟨c7_retry_amended.1 "p" 9 c7WitState,
   by decide, by decide, by decide, by decide,
   c7_retry_amended.2 "p" 9 c7WitState ⟨"p", 0, "hi"⟩ (by decide)
     (by decide) (by decide) (by decide)⟩

/-- The two operations that clear the paused flag before processing. -/
def unpausesAct : Act → Bool
  | Act.start _ => true
  | Act.resume => true
  | _ => false

/-- C8: pausing keeps the queue and all in-flight bookkeeping intact;
while the engine is paused no reaction step other than the unpausing
operations (`start`, `resume`) ever dispatches a new batch — the
outstanding request list never grows (it is a sublist of the old one,
shrinking only by resolutions); and `resume` on a non-empty queue with
available capacity immediately dispatches the next batch, with no
visibility signal in between. -/
theorem c8_pause_blocks_dispatch :
    (∀ s : EngineState,
      (pauseFn s).queue = s.queue ∧
      (pauseFn s).pendingIds = s.pendingIds ∧
      (pauseFn s).completedIds = s.completedIds ∧
      (pauseFn s).inflight = s.inflight ∧
      (pauseFn s).isPaused = true) ∧
    (∀ (a : Act) (s : EngineState), s.isPaused = true →
      unpausesAct a = false →
      List.Sublist (stepA a s).1.inflight s.inflight) ∧
    (∀ s : EngineState, s.isPaused = true →
      s.queue.isEmpty = false →
      s.activeRequests < s.config.maxConcurrentRequests →
      (buildBatch s).isEmpty = false →
      ∃ fb, (resumeFn s).1.inflight = s.inflight ++ [fb] ∧
        fb.items = buildBatch s) := by
  refine ⟨?_, ?_, ?_⟩
  · intro s
    refine ⟨by simp, by simp, by simp, by simp, ?_⟩
    unfold pauseFn
    rw [setStatusFn_isPaused]
  · intro a s hp hna
    cases a with
    | tick =>
      simp only [stepA]
      split
      · rw [processQueueFn_of_paused s hp]
      · exact List.Sublist.refl _
    | visible c now =>
      simp only [stepA, onParagraphVisibleFn_inflight]
      exact List.Sublist.refl _
    | enqueue c p now =>
      simp only [stepA, enqueueFn_inflight]
      exact List.Sublist.refl _
    | observe c i t =>
      simp only [stepA, observeFn_inflight]
      exact List.Sublist.refl _
    | retry c now =>
      simp only [stepA]
      unfold retryFn
      dsimp only
      split
      · exact List.Sublist.refl _
      · rw [processQueueFn_of_paused _ (by simp [hp])]
        simp only [addToQueueDirect_inflight]
        exact List.Sublist.refl _
    | start now => simp [unpausesAct] at hna
    | pause =>
      simp only [stepA, pauseFn_inflight]
      exact List.Sublist.refl _
    | resume => simp [unpausesAct] at hna
    | updateT ts =>
      simp only [stepA]
      rw [updateTranslationsFn_eq]
      simp only [updFold_inflight']
      exact List.Sublist.refl _
    | destroy =>
      simp only [stepA, destroyFn]
      exact List.Sublist.refl _
    | resolve i oc =>
      simp only [stepA]
      rw [resolveFn_inflight]
      split
      · exact List.eraseIdx_sublist _ _
      · exact List.Sublist.refl _
  · intro s hp hq hcap hb
    unfold resumeFn
    dsimp only
    rw [if_pos (Or.inl (List.length_pos_of_ne_nil
      (List.isEmpty_eq_false.mp hq)))]
    have hcongr : buildBatch (setStatusFn Status.translating
        { s with isPaused := false }) = buildBatch s :=
      buildBatch_congr (by simp) (by simp) (by simp)
    obtain ⟨fb, hinf, hitems, hcomp, hpend⟩ :=
      processQueueFn_dispatch_exists
        (setStatusFn Status.translating { s with isPaused := false })
        (by simp) (by simp [hcap]) (by simp [hq]) (by simp [hcongr, hb])
    refine ⟨fb, ?_, ?_⟩
    · rw [hinf]
      simp
    · rw [hitems, hcongr]

/-- The C8 witness run: one registered paragraph enqueued while paused, so
the queue is non-empty, nothing is in flight, and the engine is paused. -/
def c8WitState : EngineState :=
  runActs (initEngine defaultConfig [⟨"p", 0, "hi"⟩] [])
    [Act.observe "p" 0 "hi", Act.pause, Act.enqueue "p" Priority.normal 3]

/-- Witness for C8 at a concrete reachable paused state: a tick while
paused dispatches nothing, and `resume` immediately dispatches the queued
batch. -/
theorem c8_pause_blocks_dispatch_witness :
    ((pauseFn c8WitState).queue = c8WitState.queue ∧
      (pauseFn c8WitState).pendingIds = c8WitState.pendingIds ∧
      (pauseFn c8WitState).completedIds = c8WitState.completedIds ∧
      (pauseFn c8WitState).inflight = c8WitState.inflight ∧
      (pauseFn c8WitState).isPaused = true) ∧
    (c8WitState.isPaused = true ∧ unpausesAct Act.tick = false ∧
      List.Sublist (stepA Act.tick c8WitState).1.inflight
        c8WitState.inflight) ∧
    (c8WitState.queue.isEmpty = false ∧
      c8WitState.activeRequests <
        c8WitState.config.maxConcurrentRequests ∧
      (buildBatch c8WitState).isEmpty = false ∧
      ∃ fb, (resumeFn c8WitState).1.inflight =
          c8WitState.inflight ++ [fb] ∧
        fb.items = buildBatch c8WitState) :=
  ⟨c8_pause_blocks_dispatch.1 c8WitState,
   ⟨by decide, by decide,
    c8_pause_blocks_dispatch.2.1 Act.tick c8WitState (by decide)
      (by decide)⟩,
   ⟨by decide, by decide, by decide,
    c8_pause_blocks_dispatch.2.2 c8WitState (by decide) (by decide)
      (by decide) (by decide)⟩⟩

/-- C9: a visibility signal is ignored entirely (state literally
unchanged) before the engine is started; on a started engine, for a
registered paragraph that is not in flight and not completed, the signal
leaves the paragraph queued, and every queue entry it creates is a
normal-priority entry for a paragraph that was not queued, in flight or
completed before, whose ordinal lies in the forward window
`[p, p + lookaheadCount]` — in particular nothing with an ordinal below
the visible paragraph is ever enqueued. -/
theorem c9_visibility_signal :
    (∀ (c : String) (now : Nat) (s : EngineState),
      s.isStarted = false → onParagraphVisibleFn c now s = s) ∧
    (∀ (c : String) (now : Nat) (s : EngineState) (info : ParagraphInfo),
      s.isStarted = true → recGet s.paragraphMap c = some info →
      c ∉ s.pendingIds → c ∉ s.completedIds →
      chunksIndexed s.allChunks →
      c ∈ queueIds (onParagraphVisibleFn c now s) ∧
      (∀ q ∈ (onParagraphVisibleFn c now s).queue,
        q ∈ s.queue ∨
          (info.chunkIndex ≤ q.chunkIndex ∧
           q.priority = Priority.normal ∧
           q.chunkId ∉ s.pendingIds ∧ q.chunkId ∉ s.completedIds ∧
           q.chunkIndex ≤ info.chunkIndex + s.config.lookaheadCount))) := by
  refine ⟨onParagraphVisibleFn_not_started, ?_⟩
  intro c now s info hst hrec hp hc hidx
  constructor
  · by_cases hq : c ∈ queueIds s
    · exact (onParagraphVisibleFn_countQ_of_mem now s hq).2
    · exact (onParagraphVisibleFn_countQ_insert now s hst hrec hq hp hc).2
  · intro q hq
    exact onParagraphVisibleFn_queue_mem hst hrec hp hc hidx hq

/-- The C9 witness run: two registered chunks, engine started with an
empty auto-queue prefix, so the signal on the first paragraph queues it
and its look-ahead window. -/
def c9WitState : EngineState :=
  runActs (initEngine { defaultConfig with translateFirstN := 0 }
    [⟨"p", 0, "hi"⟩, ⟨"q", 1, "ho"⟩] []) [Act.observe "p" 0 "hi",
    Act.start 0]

/-- Witness for C9 at a concrete reachable state. -/
theorem c9_visibility_signal_witness :
    (c9WitState.isStarted = true ∧
      recGet c9WitState.paragraphMap "p" = some ⟨0, "hi"⟩ ∧
      "p" ∉ c9WitState.pendingIds ∧ "p" ∉ c9WitState.completedIds ∧
      chunksIndexed c9WitState.allChunks) ∧
    ("p" ∈ queueIds (onParagraphVisibleFn "p" 4 c9WitState) ∧
      (∀ q ∈ (onParagraphVisibleFn "p" 4 c9WitState).queue,
        q ∈ c9WitState.queue ∨
          ((0 : Nat) ≤ q.chunkIndex ∧
           q.priority = Priority.normal ∧
           q.chunkId ∉ c9WitState.pendingIds ∧
           q.chunkId ∉ c9WitState.completedIds ∧
           q.chunkIndex ≤ 0 + c9WitState.config.lookaheadCount))) :=
  ⟨⟨by decide, by decide, by decide, by decide, by decide⟩,
   c9_visibility_signal.2 "p" 4 c9WitState ⟨0, "hi"⟩ (by decide)
     (by decide) (by decide) (by decide) (by decide)⟩

/-- The C10 counterexample / witness run before teardown: one paragraph
dispatched and in flight after `start`. -/
def c10PreState : EngineState :=
  runActs (initEngine { defaultConfig with translateFirstN := 1 }
    [⟨"p", 0, "hi"⟩] []) [Act.start 0]

/-- C10, counterexample: the claim asserts the resolution of a batch that
was in flight at `destroy` time is ignored — no state change, no
notifications.  The code has no teardown guard in the result-mapping: the
late resolution still records the translation, adds the id to the
completed set and fires the completion callback. -/
theorem c10_counterexample :
    (resolveFn 0 (some ["X"]) (destroyFn c10PreState)).2 =
      [Event.complete "p" "X"] ∧
    "p" ∉ c10PreState.completedIds ∧
    "p" ∈ (resolveFn 0 (some ["X"])
      (destroyFn c10PreState)).1.completedIds := by decide

/-- C10, amended: `destroy` cancels the repeating tick (a tick after
teardown is a no-op), clears the queue, the pending set and the paragraph
registry, and leaves the completed set and the outstanding requests in
place; but the eventual resolution of a batch already in flight at
teardown is NOT ignored: it still applies the positional result mapping —
non-empty positions are recorded as completed and emit completion
notifications, empty positions emit error notifications. -/
theorem c10_destroy_semantics :
    (∀ s : EngineState,
      (destroyFn s).timerActive = false ∧
      (destroyFn s).queue = [] ∧
      (destroyFn s).pendingIds = [] ∧
      (destroyFn s).paragraphMap = [] ∧
      (destroyFn s).completedIds = s.completedIds ∧
      (destroyFn s).inflight = s.inflight ∧
      stepA Act.tick (destroyFn s) = (destroyFn s, [])) ∧
    (∀ (s : EngineState) (i : Nat) (rs : List String)
        (fb : InflightBatch),
      (destroyFn s).inflight[i]? = some fb →
      fb.texts.isEmpty = false →
      (resolveFn i (some rs) (destroyFn s)).2 =
        expectedEvents fb.items rs ∧
      (∀ x, x ∈ (resolveFn i (some rs)
          (destroyFn s)).1.completedIds ↔
        x ∈ s.completedIds ∨ x ∈ goodIds fb.items rs)) := by
  constructor
  · intro s
    refine ⟨rfl, rfl, rfl, rfl, rfl, rfl, ?_⟩
    simp [stepA, destroyFn]
  · intro s i rs fb hfb ht
    exact resolve_success_spec i rs (destroyFn s) hfb ht

/-- The batch in flight at teardown in the C10 witness run. -/
def c10WitBatch : InflightBatch :=
  ⟨[⟨"p", 0, Priority.normal, 0⟩], ["hi"]⟩

/-- Witness for the amended C10 theorem at a concrete reachable state. -/
theorem c10_destroy_semantics_witness :
    ((destroyFn c10PreState).inflight[0]? = some c10WitBatch ∧
      c10WitBatch.texts.isEmpty = false) ∧
    ((resolveFn 0 (some ["X"]) (destroyFn c10PreState)).2 =
        expectedEvents c10WitBatch.items ["X"] ∧
      (∀ x, x ∈ (resolveFn 0 (some ["X"])
          (destroyFn c10PreState)).1.completedIds ↔
        x ∈ c10PreState.completedIds ∨
          x ∈ goodIds c10WitBatch.items ["X"])) :=
  ⟨⟨by decide, by decide⟩,
   c10_destroy_semantics.2 c10PreState 0 ["X"] c10WitBatch (by decide)
     (by decide)⟩
